import Mathlib

/-!
Verification development for the godev dashboard aggregator.

This file gives a shallow embedding of the data-synchronization and
state-derivation engine: the CL/Issue record types, the derivation
transforms `updateCL` / `updateIssue`, the transactional merge functions
`writeCL` / `writeIssue`, the lease primitive `Lock`, and the issue
adapter's window-shrinking `load` loop.  Times are modelled as `Int`
nanoseconds (Go `time.Time` / `time.Duration`); Go maps keyed by strings
are modelled as association lists; a merge transaction is a pure function
returning the error (if any) together with the resulting store, the store
being unchanged when an error is returned (transaction abort).

Go regular expressions used by the derivation code are embedded as
dedicated character-list matchers, one per pattern, mirroring RE2
leftmost-match semantics for each concrete pattern.
-/

/-- Single-quote character (U+0027), used to build string literals. -/
def squote : Char := Char.ofNat 39

/-- Replace the placeholder character `?` by a single quote.  Used to write
string literals containing a quote. -/
def withSq (s : String) : String := ⟨s.data.map fun c => if c = '?' then squote else c⟩

/-- Go regexp `\w`: ASCII word character. -/
def isWordChar (c : Char) : Bool := c.isAlpha || c.isDigit || c = '_'

/-- Character class `[\w\-.]` used by the reviewer/hello patterns. -/
def isClassChar (c : Char) : Bool := isWordChar c || c = '-' || c = '.'

/-- Go regexp `\s` (RE2): space, tab, newline, carriage return, form feed,
vertical tab.  Within a single line (no `\n`). -/
def isSpaceChar (c : Char) : Bool :=
  c = ' ' || c = '\t' || c = '\r' || c.toNat = 12 || c.toNat = 11

/-- Lower-case a character list (ASCII folding, enough for the `(?i)` patterns). -/
def lowerL (l : List Char) : List Char := l.map Char.toLower

/-- Split a character list at every occurrence of `sep` (like Go's positions
after each newline for `(?m)^`). -/
def splitChar (sep : Char) : List Char → List (List Char)
  | [] => [[]]
  | c :: rest =>
    if c = sep then [] :: splitChar sep rest
    else
      match splitChar sep rest with
      | [] => [[c]]
      | g :: gs => (c :: g) :: gs

/-- Go `strings.Contains` on character lists. -/
def listContains (pat : List Char) : List Char → Bool
  | [] => pat.isEmpty
  | c :: rest => pat.isPrefixOf (c :: rest) || listContains pat rest

/-- Go `strings.Contains`. -/
def containsStr (pat s : String) : Bool := listContains pat.data s.data

/-- Go `strings.HasPrefix`. -/
def hasPfx (p s : String) : Bool := p.data.isPrefixOf s.data

/-- Go `strings.HasSuffix`. -/
def hasSfx (p s : String) : Bool := p.data.isSuffixOf s.data

/-- Go `strings.TrimPrefix`. -/
def trimPfx (p s : String) : String :=
  if p.data.isPrefixOf s.data then ⟨s.data.drop p.data.length⟩ else s

/-- Go `strings.TrimSuffix`. -/
def trimSfx (p s : String) : String :=
  if p.data.isSuffixOf s.data then ⟨s.data.take (s.data.length - p.data.length)⟩ else s

/-- Go `strings.TrimSpace` (ASCII whitespace). -/
def trimSpaceStr (s : String) : String :=
  ⟨((s.data.dropWhile isSpaceChar).reverse.dropWhile isSpaceChar).reverse⟩

/-- Lexicographic comparison of character lists (Go compares strings by
bytes; UTF-8 byte order coincides with code-point order). -/
def listLe : List Char → List Char → Bool
  | [], _ => true
  | _ :: _, [] => false
  | a :: as, b :: bs => if a < b then true else if b < a then false else listLe as bs

/-- Go string `<=` (bytewise). -/
def strLeB (a b : String) : Bool := listLe a.data b.data

/-- Go `sort.Strings` (ascending). -/
def sortStrs (l : List String) : List String :=
  List.insertionSort (fun a b => strLeB a b = true) l

/-- Association-list lookup (`datastore.Get` by key / map index). -/
def lookupA {α : Type} (k : String) : List (String × α) → Option α
  | [] => none
  | (k1, v) :: rest => if k1 = k then some v else lookupA k rest

/-- Association-list store (`datastore.Put` by key / map assign). -/
def writeA {α : Type} (k : String) (v : α) : List (String × α) → List (String × α)
  | [] => [(k, v)]
  | (k1, v1) :: rest => if k1 = k then (k, v) :: rest else (k1, v1) :: writeA k v rest

/- ### Regex-equivalent matchers

Each definition embeds one of the patterns of the codereview package. -/

/-- `(?im)^LGTM` — some line starts with "LGTM", case-insensitively. -/
def lgtmMatch (s : String) : Bool :=
  (splitChar '\n' s.data).any fun l => "lgtm".data.isPrefixOf (lowerL l)

/-- `(?im)^NOT LGTM`. -/
def notlgtmMatch (s : String) : Bool :=
  (splitChar '\n' s.data).any fun l => "not lgtm".data.isPrefixOf (lowerL l)

/-- `(?im)^(PTAL|Please take a(nother)? look|I'd like you to review this change)`. -/
def ptalMatch (s : String) : Bool :=
  (splitChar '\n' s.data).any fun l =>
    let low := lowerL l
    "ptal".data.isPrefixOf low ||
    "please take a look".data.isPrefixOf low ||
    "please take another look".data.isPrefixOf low ||
    (withSq "i?d like you to review this change").data.isPrefixOf low

/-- Drop the trailing `-`/`.` characters of a `[\w\-.]+` run, as forced by the
trailing `\b`: the run is maximal, so the following character is outside the
class and in particular not a word character; the word boundary therefore holds
exactly after the last word character of the run. -/
def dropTrailingNonWord (run : List Char) : List Char :=
  (run.reverse.dropWhile fun c => !isWordChar c).reverse

/-- `(?m)^(?:TB)?R=([\w\-.]+)\b` applied to one line; returns the submatch. -/
def reviewerLine (l : List Char) : Option (List Char) :=
  let rest : Option (List Char) :=
    if "TBR=".data.isPrefixOf l then some (l.drop 4)
    else if "R=".data.isPrefixOf l then some (l.drop 2)
    else none
  match rest with
  | none => none
  | some r =>
    let run := r.takeWhile isClassChar
    let cap := dropTrailingNonWord run
    if cap.isEmpty then none else some cap

/-- `reviewerRE.FindStringSubmatch`: the capture of the first matching line. -/
def reviewerFind (s : String) : Option String :=
  match (splitChar '\n' s.data).findSome? reviewerLine with
  | none => none
  | some cap => some ⟨cap⟩

/-- The literal `I'd like you to review this change`. -/
def reviewLit : String := withSq "I?d like you to review this change"

/-- After the hello line: `\s+^I'd like you to review this change` — skip
whitespace-only lines until a line starting with the literal. -/
def seekLiteral : List (List Char) → Bool
  | [] => false
  | l :: rest => reviewLit.data.isPrefixOf l || (l.all isSpaceChar && seekLiteral rest)

/-- `Hello ([\w\-.]+)[ ,@][^\n]*\s+^I'd like…` anchored at the current
position; returns the capture on success. -/
def helloAt (l : List Char) : Option (List Char) :=
  if "Hello ".data.isPrefixOf l then
    let r := l.drop 6
    let cap := r.takeWhile isClassChar
    if cap.isEmpty then none
    else
      match r.drop cap.length with
      | [] => none
      | sep :: r3 =>
        if sep = ' ' || sep = ',' || sep = '@' then
          match splitChar '\n' r3 with
          | [] => none
          | _line0 :: restLines => if seekLiteral restLines then some cap else none
        else none
  else none

/-- Leftmost match of `helloRE` over the whole text. -/
def helloScan : List Char → Option (List Char)
  | [] => none
  | c :: rest =>
    match helloAt (c :: rest) with
    | some cap => some cap
    | none => helloScan rest

/-- `helloRE.FindStringSubmatch`: the reviewer name of the review-request
template message, if present. -/
def helloFind (s : String) : Option String :=
  match helloScan s.data with
  | none => none
  | some cap => some ⟨cap⟩

/-- `code.google.com/[pr]/[a-z0-9_.\-]+` at the current position (capture of
`helloRepoRE`), including the host part. -/
def repoCap (t : List Char) : Option (List Char) :=
  if "code.google.com/".data.isPrefixOf t then
    match t.drop 16 with
    | [] => none
    | pr :: rest =>
      if pr = 'p' || pr = 'r' then
        match rest with
        | [] => none
        | slash :: rest2 =>
          if slash = '/' then
            let run := rest2.takeWhile fun c =>
              c.isLower || c.isDigit || c = '_' || c = '.' || c = '-'
            if run.isEmpty then none
            else some ("code.google.com/".data ++ [pr, '/'] ++ run)
          else none
      else none
  else none

/-- `([a-z0-9_\-]+)\.googlecode\.com` at the current position (capture of
`helloRepoRE2`). -/
def repoCap2 (t : List Char) : Option (List Char) :=
  let run := t.takeWhile fun c => c.isLower || c.isDigit || c = '_' || c = '-'
  if run.isEmpty then none
  else if ".googlecode.com".data.isPrefixOf (t.drop run.length) then some run
  else none

/-- `(?:[^/]*@)?` followed by `k`: try the userinfo alternative with the
greedy (longest-first) `[^/]*` runs, then the bare alternative. -/
def afterUserinfo (k : List Char → Option (List Char)) (t : List Char) : Option (List Char) :=
  let slashFree := t.takeWhile (· ≠ '/')
  let tryAt : List Nat → Option (List Char) := fun idxs =>
    idxs.findSome? fun i =>
      if slashFree.getD i ' ' = '@' then k (t.drop (i + 1)) else none
  match tryAt (List.range slashFree.length).reverse with
  | some cap => some cap
  | none => k t

/-- `https?://` then optional userinfo then the capture pattern `k`. -/
def urlTail (k : List Char → Option (List Char)) (t : List Char) : Option (List Char) :=
  if "https://".data.isPrefixOf t then afterUserinfo k (t.drop 8)
  else if "http://".data.isPrefixOf t then afterUserinfo k (t.drop 7)
  else none

/-- `Hello[^\n]+\n\nI'd like you to review this change to\n` then a URL whose
repo part is captured by `k`; anchored at the current position. -/
def helloRepoAt (k : List Char → Option (List Char)) (l : List Char) : Option (List Char) :=
  if "Hello".data.isPrefixOf l then
    let r := l.drop 5
    let line0 := r.takeWhile (· ≠ '\n')
    if line0.isEmpty then none
    else
      let r2 := r.drop line0.length
      let mid := ("\n\n" ++ reviewLit ++ " to\n").data
      if mid.isPrefixOf r2 then urlTail k (r2.drop mid.length) else none
  else none

/-- Leftmost match of a hello-repo pattern over the whole text. -/
def helloRepoScan (k : List Char → Option (List Char)) : List Char → Option (List Char)
  | [] => none
  | c :: rest =>
    match helloRepoAt k (c :: rest) with
    | some cap => some cap
    | none => helloRepoScan k rest

/-- `helloRepoRE.FindStringSubmatch`: capture `code.google.com/[pr]/…`. -/
def helloRepoFind (s : String) : Option String :=
  match helloRepoScan repoCap s.data with
  | none => none
  | some cap => some ⟨cap⟩

/-- `helloRepoRE2.FindStringSubmatch`: capture `([a-z0-9_\-]+)` of
`….googlecode.com`. -/
def helloRepo2Find (s : String) : Option String :=
  match helloRepoScan repoCap2 s.data with
  | none => none
  | some cap => some ⟨cap⟩

/-- `(?i)\bissue ([0-9]+)\b` anchored at the current position (`prevW` is
whether the previous character is a word character, for the leading `\b`).
The digit run is maximal and the following character must not be a word
character (shorter runs cannot satisfy the trailing `\b` since a digit-digit
boundary is not a word boundary). -/
def issueHere (prevW : Bool) (l : List Char) : Option (List Char) :=
  if prevW then none
  else if lowerL (l.take 6) = "issue ".data then
    let d := (l.drop 6).takeWhile Char.isDigit
    if d.isEmpty then none
    else
      match (l.drop (6 + d.length)).head? with
      | some c => if isWordChar c then none else some d
      | none => some d
  else none

/-- `issueRE.FindAllStringSubmatch`: all the disjoint matches, in order.
Successive matches cannot overlap a previous match of this pattern (no
occurrence of `issue ` can begin strictly inside `issue NNN`), so scanning one
character at a time is equivalent to resuming after each match. -/
def issueScan (prevW : Bool) : List Char → List (List Char)
  | [] => []
  | c :: rest =>
    match issueHere prevW (c :: rest) with
    | some d => d :: issueScan (isWordChar c) rest
    | none => issueScan (isWordChar c) rest

/-- All issue numbers mentioned in a description, in match order. -/
def issueAll (s : String) : List String :=
  (issueScan false s.data).map fun d => (⟨d⟩ : String)

/- ### CL data model (codereview, data version 20) -/

/-- A message on a CL thread. -/
structure Message where
  Sender : String
  Text : String
  Time : Int
deriving DecidableEq, Repr

/-- A code-review record.  The first block mirrors codereview.appspot.com;
the second block holds derived fields. -/
structure CL where
  DV : Int := 0
  -- Fields mirrored from codereview.appspot.com.
  CL : String := ""
  Desc : String := ""
  Owner : String := ""
  OwnerEmail : String := ""
  Created : Int := 0
  Modified : Int := 0
  Messages : List Message := []
  Reviewers : List String := []
  CC : List String := []
  Closed : Bool := false
  Submitted : Bool := false
  PatchSets : List String := []
  -- Derived fields.
  Dead : Bool := false
  MessagesLoaded : Bool := false
  PatchSetsLoaded : Bool := false
  HasReviewers : Bool := false
  Mailed : Bool := false
  Summary : String := ""
  Active : Bool := false
  Repo : String := ""
  Files : List String := []
  MoreFiles : Bool := false
  FilesModified : Int := 0
  Delta : Int := 0
  PrimaryReviewer : String := ""
  NeedsReview : Bool := false
  LGTM : List String := []
  NOTLGTM : List String := []
  DescIssue : List String := []
  MailedIssue : List String := []
  NeedMailIssue : List String := []
deriving DecidableEq, Repr

/-- The zero `CL` value (fresh record before any merge). -/
def zeroCL : CL := {}

/-- The committers list from the codereview package. -/
def committers : List String :=
  [ "0xe2.0x9a.0x9b@gmail.com", "adg@golang.org", "adonovan@google.com",
    "agl@golang.org", "alex.brainman@gmail.com", "ality@pbrane.org",
    "bgarcia@golang.org", "bradfitz@golang.org", "campoy@golang.org",
    "cmang@golang.org", "crawshaw@google.com", "cshapiro@golang.org",
    "daniel.morsing@gmail.com", "dave@cheney.net", "djd@golang.org",
    "dsymonds@golang.org", "dvyukov@google.com", "gri@golang.org",
    "hectorchu@gmail.com", "iant@golang.org", "jdpoirier@gmail.com",
    "jsing@google.com", "ken@golang.org", "khr@golang.org", "lvd@golang.org",
    "mikesamuel@gmail.com", "mikioh.mikioh@gmail.com", "minux.ma@gmail.com",
    "mpvl@golang.org", "n13m3y3r@gmail.com", "nigeltao@golang.org",
    "pjw@golang.org", "r@golang.org", "remyoudompheng@gmail.com",
    "rminnich@gmail.com", "rogpeppe@gmail.com", "rsc@golang.org",
    "sameer@golang.org" ]

/-- The loop body of `isReviewer`: first committer equal to `email` or `other`. -/
def findCommitter (email other : String) : List String → String
  | [] => ""
  | c :: rest => if c = email || c = other then c else findCommitter email other rest

/-- `isReviewer`: canonical committer address for `email`, or `""`. -/
def isReviewer (email : String) : String :=
  let other :=
    if hasSfx "@google.com" email then trimSfx "@google.com" email ++ "@golang.org"
    else ""
  findCommitter email other committers

/-- The local part of a committer address (before the `@`), if any. -/
def localOf (c : String) : Option String :=
  let pre := c.data.takeWhile (· ≠ '@')
  if pre.length = c.data.length then none else some ⟨pre⟩

/-- The loop body of `expandReviewer` for short names. -/
def findLocal (short : String) : List String → String
  | [] => ""
  | c :: rest =>
    match localOf c with
    | some l => if l = short then c else findLocal short rest
    | none => findLocal short rest

/-- `expandReviewer`: expand a short reviewer name to a committer address. -/
def expandReviewer (short : String) : String :=
  if containsStr "@" short then isReviewer short
  else findLocal short committers

/-- Go `sort.Strings` result of the keys of a `map[string]bool` (`stringKeys`). -/
def stringKeys (m : List String) : List String := sortStrs m

/-- Insert into a `map[string]bool` used as a set. -/
def insertSet (x : String) (m : List String) : List String :=
  if m.contains x then m else x :: m

/-- `delete` from a `map[string]bool` used as a set. -/
def eraseSet (x : String) (m : List String) : List String := m.filter (· ≠ x)

/-- The loop state of `parseMessages` (the local variables of the message loop,
plus the `cl` fields assigned during the loop). -/
structure ParseState where
  lgtm : List String
  notlgtm : List String
  initialReviewer : String
  firstResponder : String
  explicitReviewer : String
  mailed : Bool
  submitted : Bool
  repo : String
deriving DecidableEq, Repr

/-- Message-loop step 1: LGTM / NOT LGTM bookkeeping (reviewer senders only;
a later message from the same sender overrides the earlier one). -/
def lgtmStep (st : ParseState) (m : Message) : ParseState :=
  if isReviewer m.Sender ≠ "" then
    if notlgtmMatch m.Text then
      { st with notlgtm := insertSet m.Sender st.notlgtm,
                lgtm := eraseSet m.Sender st.lgtm }
    else if lgtmMatch m.Text then
      { st with lgtm := insertSet m.Sender st.lgtm,
                notlgtm := eraseSet m.Sender st.notlgtm }
    else st
  else st

/-- Message-loop step 2: the templated hello message marks the CL mailed and
names the initial reviewer. -/
def helloStep (st : ParseState) (m : Message) : ParseState :=
  match helloFind m.Text with
  | some cap =>
    { st with mailed := true,
              initialReviewer :=
                if expandReviewer cap ≠ "" then expandReviewer cap
                else st.initialReviewer }
  | none => st

/-- Message-loop steps 3 and 4: learn the repository from the hello message,
only when no repository is known yet. -/
def repoStep (st : ParseState) (m : Message) : ParseState :=
  let st :=
    match helloRepoFind m.Text with
    | some cap => if st.repo = "" then { st with repo := cap } else st
    | none => st
  match helloRepo2Find m.Text with
  | some cap =>
    if st.repo = "" then { st with repo := "code.google.com/p/" ++ cap } else st
  | none => st

/-- Message-loop step 5: a "*** Submitted as" message marks the CL submitted. -/
def submitStep (st : ParseState) (m : Message) : ParseState :=
  if containsStr "*** Submitted as" m.Text then { st with submitted := true } else st

/-- Message-loop step 6: the last explicit `R=` directive. -/
def explicitStep (st : ParseState) (m : Message) : ParseState :=
  match reviewerFind m.Text with
  | some r =>
    if r = "close" then { st with explicitReviewer := "close" }
    else if r = "golang-dev" || r = "golang-codereviews" then
      { st with explicitReviewer := "golang-dev" }
    else if expandReviewer r ≠ "" then { st with explicitReviewer := expandReviewer r }
    else st
  | none => st

/-- Message-loop step 7: the first non-owner reviewer-class responder. -/
def responderStep (ownerEmail : String) (st : ParseState) (m : Message) : ParseState :=
  if isReviewer m.Sender ≠ "" && m.Sender ≠ ownerEmail &&
     isReviewer ownerEmail ≠ isReviewer m.Sender && st.firstResponder = "" then
    { st with firstResponder := isReviewer m.Sender }
  else st

/-- One iteration of the message loop of `parseMessages` (the loop body, in
source order). -/
def parseStep (ownerEmail : String) (st : ParseState) (m : Message) : ParseState :=
  responderStep ownerEmail
    (explicitStep (submitStep (repoStep (helloStep (lgtmStep st m) m) m) m) m) m

/-- One iteration of the needs-review loop of `parseMessages`. -/
def nrStep (pr : String) (nr : Bool) (m : Message) : Bool :=
  let nr := if ptalMatch m.Text then true else nr
  if m.Sender = pr then false else nr

/-- `(*CL).parseMessages`: update CL state based on parsing the messages. -/
def parseMessages (cl : CL) : CL :=
  let st0 : ParseState :=
    { lgtm := [], notlgtm := [], initialReviewer := "", firstResponder := "",
      explicitReviewer := "", mailed := false, submitted := false, repo := cl.Repo }
  let st := cl.Messages.foldl (parseStep cl.OwnerEmail) st0
  let lgtmL := stringKeys st.lgtm
  let notlgtmL := stringKeys st.notlgtm
  let pr0 : String :=
    if st.submitted && !lgtmL.isEmpty then lgtmL.headD ""
    else if st.explicitReviewer ≠ "" then st.explicitReviewer
    else if st.initialReviewer ≠ "" then st.initialReviewer
    else if st.firstResponder ≠ "" then st.firstResponder
    else ""
  let pr := if pr0 = "golang-dev" then "" else pr0
  let nr : Bool :=
    if st.submitted then lgtmL.isEmpty
    else cl.Messages.foldl (nrStep pr) false
  { cl with Mailed := st.mailed, Submitted := st.submitted, Repo := st.repo,
            LGTM := lgtmL, NOTLGTM := notlgtmL, PrimaryReviewer := pr,
            NeedsReview := nr }

/-- One nanosecond-denominated hour (`time.Hour`). -/
def hourNs : Int := 3600 * 1000000000

/-- One nanosecond-denominated second (`time.Second`). -/
def secondNs : Int := 1000000000

/-- One nanosecond-denominated minute (`time.Minute`). -/
def minuteNs : Int := 60 * 1000000000

/-- The `Repo` shortening step of `updateCL`. -/
def trimRepo (r : String) : String :=
  if hasPfx "code.google.com/p/go." r || r = "code.google.com/p/go" then
    trimPfx "code.google.com/p/" r
  else r

/-- The `Summary` computation of `updateCL`: first line of the description,
capped at 100 characters. -/
def summaryOf (d : String) : String :=
  let s := trimSpaceStr d
  let s : String := ⟨s.data.takeWhile (· ≠ '\n')⟩
  if s.data.length > 100 then ⟨s.data.take 100⟩ else s

/-- The `NeedMailIssue` accumulation loop of `updateCL`. -/
def needMailLoop (mailed acc : List String) : List String → List String
  | [] => acc
  | i :: rest =>
    if mailed.contains i then needMailLoop mailed acc rest
    else needMailLoop (i :: mailed) (acc ++ [i]) rest

/-- `updateCL`: the derivation transform registered for kind "CL".
`now` is `time.Now()` in nanoseconds. -/
def updateCL (now : Int) (cl : CL) : CL :=
  let cl := parseMessages cl
  let cl := { cl with HasReviewers := !cl.Reviewers.isEmpty }
  let cl :=
    { cl with Active :=
        cl.Mailed && cl.HasReviewers && !cl.Closed && !cl.Submitted && !cl.Dead &&
        decide (now - cl.Modified < 365 * 24 * hourNs) &&
        cl.PrimaryReviewer ≠ "close" }
  let cl := { cl with DescIssue := sortStrs (issueAll cl.Desc) }
  let cl := { cl with MailedIssue := sortStrs cl.MailedIssue }
  let cl :=
    { cl with NeedMailIssue :=
        if cl.Active then sortStrs (needMailLoop cl.MailedIssue [] cl.DescIssue)
        else [] }
  let cl :=
    if cl.Dead then { cl with MessagesLoaded := true, PatchSetsLoaded := true }
    else cl
  let cl := { cl with Repo := trimRepo cl.Repo }
  let cl := { cl with Summary := summaryOf cl.Desc }
  cl

/- ### Directory attribution (`(*CL).Dirs`) -/

/-- A directory bucket with its count (`dirCount`). -/
structure dirCount where
  name : String
  count : Int
deriving DecidableEq, Repr

/-- The `dirCounts` ordering: by count descending, ties by name ascending
(reflexive closure, for sorting). -/
def dirLe (x y : dirCount) : Prop :=
  y.count < x.count ∨ (x.count = y.count ∧ strLeB x.name y.name = true)

instance : DecidableRel dirLe := fun x y =>
  inferInstanceAs (Decidable (y.count < x.count ∨ (x.count = y.count ∧ strLeB x.name y.name = true)))

/-- Increment a bucket of the counts map. -/
def bumpCount (k : String) : List (String × Int) → List (String × Int)
  | [] => [(k, 1)]
  | (k1, v) :: rest => if k1 = k then (k1, v + 1) :: rest else (k1, v) :: bumpCount k rest

/-- The directory key of one file of a CL: strip the final path component,
strip a `src/pkg/` or `src/` prefix, map `src` and the empty directory to
their sentinels, and apply the repo prefix. -/
def fileDir (pfx : String) (file : String) : String :=
  let name :=
    if file.data.contains '/' then
      ⟨List.intercalate ['/'] (splitChar '/' file.data).dropLast⟩
    else ""
  let name := trimPfx "src/pkg/" name
  let name := trimPfx "src/" name
  let name := if name = "src" then "" else name
  let name := pfx ++ name
  if name = "" then "build" else name

/-- The counts map of `Dirs` (before the `test` decrement), in first-insertion
order.  Go iterates the map in unspecified order, but the comparator is a
strict total order on the distinct bucket names, so the sorted result below is
independent of this order. -/
def dirsCountsRaw (pfx : String) (files : List String) : List (String × Int) :=
  files.foldl (fun m f => bumpCount (fileDir pfx f) m) []

/-- The `test` decrement: `counts["test"] -= 10000` when present. -/
def applyTestPenalty (m : List (String × Int)) : List (String × Int) :=
  if (lookupA "test" m).isSome then
    m.map fun kv => if kv.1 = "test" then (kv.1, kv.2 - 10000) else kv
  else m

/-- The repo prefix used by `Dirs`. -/
def dirsPfx (repo : String) : String :=
  if hasPfx "go." repo then repo ++ "/"
  else if repo ≠ "" && repo ≠ "go" then repo ++ "/"
  else ""

/-- The sorted bucket list of `Dirs`. -/
def dirsSorted (cl : CL) : List dirCount :=
  let counts := applyTestPenalty (dirsCountsRaw (dirsPfx cl.Repo) cl.Files)
  List.insertionSort dirLe (counts.map fun kv => ⟨kv.1, kv.2⟩)

/-- `(*CL).Dirs`: the directories this CL might be said to be about, in
preference order. -/
def Dirs (cl : CL) : List String := (dirsSorted cl).map dirCount.name

/- ### Issue data model (issue package, data version 3) -/

/-- A single comment on an issue. -/
structure Comment where
  Author : String := ""
  Time : Int := 0
  Summary : String := ""
  Status : String := ""
  Duplicate : Int := 0
  Owner : String := ""
  CC : String := ""
  Label : String := ""
  Text : String := ""
deriving DecidableEq, Repr

/-- A single issue on the tracker.  `NeedGithubNote` is the derived field set
by `updateIssue` (present in the code, added after the data-file snapshot). -/
structure Issue where
  DV : Int := 0
  ID : Int := 0
  Created : Int := 0
  Modified : Int := 0
  Summary : String := ""
  Status : String := ""
  Duplicate : Int := 0
  Owner : String := ""
  CC : List String := []
  Label : List String := []
  Comment : List Comment := []
  State : String := ""
  Stars : Int := 0
  ClosedDate : Int := 0
  NeedGithubNote : Bool := false
deriving DecidableEq, Repr

/-- The zero `Issue` value. -/
def zeroIssue : Issue := {}

/-- `updateIssue`: the derivation transform registered for kind "Issue". -/
def updateIssue (issue : Issue) : Issue :=
  if issue.Label.contains "IssueMoved" then issue
  else { issue with NeedGithubNote := true }

/-- The store updater for kind "Issue" (`update` sets `DV` to the current data
version, then applies the registered updater; applied by `ReadData` after a
read and by `WriteData` before a write). -/
def applyIssueUpdater (i : Issue) : Issue := updateIssue { i with DV := 3 }

/-- The datastore key of an issue (`fmt.Sprint(issue.ID)`). -/
def issueKey (id : Int) : String := toString id

/-- The persisted state touched by the issue adapter: the "Issue" kind and the
integer-valued `Meta` entries (`issue.count`, `issue.mtime`). -/
structure IssueStore where
  issues : List (String × Issue) := []
  meta : List (String × Int) := []
deriving DecidableEq, Repr

/-- `writeIssue`: merge one remote issue into the store inside one
transaction.  Returns the error, if any, together with the resulting store;
on error the transaction aborts and the store is returned unchanged. -/
def readOldIssue (st : IssueStore) (key : String) : Issue :=
  match lookupA key st.issues with
  | some o => applyIssueUpdater o
  | none => zeroIssue

/-- The field-copy step of `writeIssue`: copy the issue into the original
structure, maintaining the other information in the structure. -/
def copyIssue (old issue : Issue) : Issue :=
  { old with ID := issue.ID, Summary := issue.Summary, Status := issue.Status,
             Duplicate := issue.Duplicate, Owner := issue.Owner, CC := issue.CC,
             Label := issue.Label, Comment := issue.Comment, State := issue.State,
             Created := issue.Created, Modified := issue.Modified,
             Stars := issue.Stars, ClosedDate := issue.ClosedDate }

def writeIssue (st : IssueStore) (issue : Issue) (stateKey : String) (state : Int) :
    Option String × IssueStore :=
  let key := issueKey issue.ID
  let old := readOldIssue st key
  let meta1 :=
    if old.ID = 0 then
      writeA "issue.count" ((lookupA "issue.count" st.meta).getD 0 + 1) st.meta
    else st.meta
  if old.Modified > issue.Modified then
    (some "issue: have newer modification time", st)
  else
    let merged := applyIssueUpdater (copyIssue old issue)
    let meta2 := if stateKey ≠ "" then writeA stateKey state meta1 else meta1
    (none, { issues := writeA key merged st.issues, meta := meta2 })

/- ### CL store and merge (`writeCL`) -/

/-- The persisted state touched by the codereview adapter: the "CL" kind, the
string-valued mtime `Meta` entries, and the `codereview.count` counter. -/
structure CLStore where
  cls : List (String × CL) := []
  meta : List (String × String) := []
  count : Int := 0
deriving DecidableEq, Repr

/-- The store updater for kind "CL" (`update` sets `DV` then applies
`updateCL`; applied on every read and every write). -/
def applyCLUpdater (now : Int) (c : CL) : CL := updateCL now { c with DV := 20 }

/-- The field-copy step of `writeCL` (the non-dead branch): copy the mirrored
fields forward, preserving everything else. -/
def copyCL (old cl : CL) : CL :=
  let old :=
    { old with CL := cl.CL, Desc := cl.Desc, Owner := cl.Owner,
               OwnerEmail := cl.OwnerEmail, Created := cl.Created,
               Modified := cl.Modified, MessagesLoaded := cl.MessagesLoaded }
  let old :=
    if cl.MessagesLoaded then { old with Messages := cl.Messages, Submitted := cl.Submitted }
    else old
  let old := { old with Reviewers := cl.Reviewers, CC := cl.CC, Closed := cl.Closed }
  if old.PatchSets ≠ cl.PatchSets then
    { old with PatchSets := cl.PatchSets, PatchSetsLoaded := false }
  else old

/-- `writeCL`: merge one remote CL into the store inside one transaction.
Returns the error, if any, together with the resulting store; on error the
transaction aborts and the store is returned unchanged. -/
def readOldCL (now : Int) (st : CLStore) (key : String) : CL :=
  match lookupA key st.cls with
  | some o => applyCLUpdater now o
  | none => zeroCL

def writeCL (now : Int) (st : CLStore) (cl : CL) (mtimeKey modified : String) :
    Option String × CLStore :=
  if cl.CL = "" then (some "missing key", st)
  else
    let old := readOldCL now st cl.CL
    let count1 := if old.CL = "" then st.count + 1 else st.count
    let finish : CL → Option String × CLStore := fun mergedRaw =>
      let merged := applyCLUpdater now mergedRaw
      let meta2 := if mtimeKey ≠ "" then writeA mtimeKey modified st.meta else st.meta
      (none, { cls := writeA cl.CL merged st.cls, meta := meta2, count := count1 })
    if cl.Dead then
      finish { old with Dead := true }
    else if old.Modified > cl.Modified then
      (some "CL: have newer modification time", st)
    else
      finish (copyCL { old with Dead := false } cl)

/- ### Lease-based locking (`app.Lock` / `app.Unlock`) -/

/-- The lease state for one name: the stored expiry time, if a lease record
exists.  A missing record reads as the zero time (`0`). -/
def lockExpiry (st : Option Int) : Int := st.getD 0

/-- `Lock(name, dt)` at time `now`, as one atomic read-check-write
transaction on the lease record: returns whether the lock was acquired,
together with the new lease state. -/
def lockAcquire (now dt : Int) (st : Option Int) : Bool × Option Int :=
  if now < lockExpiry st then (false, st)
  else (true, some (now + dt))

/-- `Unlock(name)`: delete the lease record. -/
def unlockRelease (_st : Option Int) : Option Int := none

/-- Run a sequence of `Lock` attempts (at the given times, same name and
duration), returning the acquisition results. -/
def runLocks (dt : Int) (st : Option Int) : List Int → List Bool × Option Int
  | [] => ([], st)
  | t :: rest =>
    let r := lockAcquire t dt st
    let rr := runLocks dt r.2 rest
    (r.1 :: rr.1, rr.2)

/- ### The issue adapter's load loop (`issue.load`) -/

/-- The result of one invocation of the `load` cron job.  `done` and
`moreCron` are the `nil` / `ErrMoreCron` returns after a successful pass;
the other constructors are the early `return nil` paths, each of which logs
an error and leaves the checkpoint unchanged. -/
inductive LoadOutcome where
  | done
  | moreCron
  | cannotShrink
  | writeFailed
  | emptyDetail
deriving DecidableEq, Repr

/-- A feed: `search(detail, updateMin, updateMax)` returning issues.  Fetch
errors are out of scope (they abort the pass without touching the store). -/
def Feed : Type := Bool → Int → Int → List Issue

/-- The merge loop of `load`: `writeIssue` every fetched issue, tracking the
largest `Modified` seen; stops at the first failing write (the store keeps
the merges already committed, each being its own transaction). -/
def mergeList (st : IssueStore) (mtime : Int) : List Issue → Bool × IssueStore × Int
  | [] => (true, st, mtime)
  | i :: rest =>
    match writeIssue st i "" 0 with
    | (some _, st1) => (false, st1, mtime)
    | (none, st1) =>
      mergeList st1 (if mtime < i.Modified then i.Modified else mtime) rest

/-- The epoch used when no checkpoint exists (2009-01-01 UTC, nanoseconds). -/
def epoch2009 : Int := 1230768000000000000

/-- The tail of `load` once a non-saturated page is found: re-fetch with
detail, merge, advance the checkpoint. -/
def finishLoad (feed : Feed) (st : IssueStore) (mtime now : Int) (needMore : Bool)
    (shrunk : Bool) : LoadOutcome × IssueStore :=
  let issues := feed true mtime now
  if issues.length = 0 then (.emptyDetail, st)
  else
    match mergeList st mtime issues with
    | (false, st1, _) => (.writeFailed, st1)
    | (true, st1, mtime1) =>
      let mtime2 := if shrunk then now - secondNs else mtime1
      let st2 := { st1 with meta := writeA "issue.mtime" mtime2 st1.meta }
      (if needMore then .moreCron else .done, st2)

/-- The fetch-and-shrink loop of `load`.  `maxResults = 500`; a saturated
page shrinks the window end by a factor of 10 when the window exceeds one
hour and by half otherwise; a window of at most 2 seconds aborts. -/
def loadLoop (feed : Feed) (st : IssueStore) (mtime now : Int) (try0 : Nat) :
    LoadOutcome × IssueStore :=
  let issues := feed false mtime now
  if issues.length = 0 then
    let st1 := { st with meta := writeA "issue.mtime" (now - minuteNs) st.meta }
    (if try0 > 0 then .moreCron else .done, st1)
  else if issues.length < 500 then
    finishLoad feed st mtime now (try0 > 0) (try0 > 0)
  else if now - mtime ≤ 2 * secondNs then
    (.cannotShrink, st)
  else
    let now1 :=
      if now - mtime > hourNs then mtime + (now - mtime) / 10
      else mtime + (now - mtime) / 2
    loadLoop feed st mtime now1 (try0 + 1)
termination_by (now - mtime).toNat
decreasing_by
  simp only [hourNs, secondNs] at *
  split <;> omega

/-- `load`: one invocation of the issue-loading cron job, starting from the
stored checkpoint. -/
def loadIssues (feed : Feed) (st : IssueStore) (now : Int) : LoadOutcome × IssueStore :=
  let mtime := (lookupA "issue.mtime" st.meta).getD epoch2009
  loadLoop feed st mtime now 0

/- ### Derivation normal form and helper lemmas -/

/-- The message-loop result of `parseMessages` on a CL. -/
def parsedOf (cl : CL) : ParseState :=
  cl.Messages.foldl (parseStep cl.OwnerEmail)
    { lgtm := [], notlgtm := [], initialReviewer := "", firstResponder := "",
      explicitReviewer := "", mailed := false, submitted := false, repo := cl.Repo }

/-- The sorted LGTM list computed by `parseMessages`. -/
def lgtmOf (cl : CL) : List String := stringKeys (parsedOf cl).lgtm

/-- The sorted NOT-LGTM list computed by `parseMessages`. -/
def notlgtmOf (cl : CL) : List String := stringKeys (parsedOf cl).notlgtm

/-- The primary reviewer computed by `parseMessages`. -/
def prOf (cl : CL) : String :=
  let st := parsedOf cl
  let pr0 : String :=
    if st.submitted && !(lgtmOf cl).isEmpty then (lgtmOf cl).headD ""
    else if st.explicitReviewer ≠ "" then st.explicitReviewer
    else if st.initialReviewer ≠ "" then st.initialReviewer
    else if st.firstResponder ≠ "" then st.firstResponder
    else ""
  if pr0 = "golang-dev" then "" else pr0

/-- The needs-review flag computed by `parseMessages`. -/
def nrOf (cl : CL) : Bool :=
  if (parsedOf cl).submitted then (lgtmOf cl).isEmpty
  else cl.Messages.foldl (nrStep (prOf cl)) false

/-- The `Active` value computed by `updateCL`. -/
def activeOf (now : Int) (cl : CL) : Bool :=
  (parsedOf cl).mailed && !cl.Reviewers.isEmpty && !cl.Closed &&
  !(parsedOf cl).submitted && !cl.Dead &&
  decide (now - cl.Modified < 365 * 24 * hourNs) && (prOf cl ≠ "close")

/-- The repo update of one message (the two hello-repo steps on the repo
string alone). -/
def repoUpd (r : String) (m : Message) : String :=
  let r :=
    match helloRepoFind m.Text with
    | some cap => if r = "" then cap else r
    | none => r
  match helloRepo2Find m.Text with
  | some cap => if r = "" then "code.google.com/p/" ++ cap else r
  | none => r

/-- The repo value threaded through the whole message loop. -/
def repoFold (r : String) (ms : List Message) : String := ms.foldl repoUpd r

theorem lgtmStep_repo (st : ParseState) (r : String) (m : Message) :
    lgtmStep { st with repo := r } m = { lgtmStep st m with repo := r } := by
  unfold lgtmStep; split_ifs <;> rfl

theorem helloStep_repo (st : ParseState) (r : String) (m : Message) :
    helloStep { st with repo := r } m = { helloStep st m with repo := r } := by
  unfold helloStep
  rcases helloFind m.Text with _ | cap <;> rfl

theorem submitStep_repo (st : ParseState) (r : String) (m : Message) :
    submitStep { st with repo := r } m = { submitStep st m with repo := r } := by
  unfold submitStep; split_ifs <;> rfl

theorem explicitStep_repo (st : ParseState) (r : String) (m : Message) :
    explicitStep { st with repo := r } m = { explicitStep st m with repo := r } := by
  unfold explicitStep
  rcases reviewerFind m.Text with _ | cap
  · rfl
  · simp only; split_ifs <;> rfl

theorem responderStep_repo (oe : String) (st : ParseState) (r : String) (m : Message) :
    responderStep oe { st with repo := r } m = { responderStep oe st m with repo := r } := by
  unfold responderStep; split_ifs <;> rfl

theorem repoStep_eq (st : ParseState) (m : Message) :
    repoStep st m = { st with repo := repoUpd st.repo m } := by
  unfold repoStep repoUpd
  rcases helloRepoFind m.Text with _ | cap <;>
    rcases helloRepo2Find m.Text with _ | cap2 <;>
      simp only <;> split_ifs <;> rfl

theorem ParseState.repo_update (st : ParseState) (r : String) :
    ({ st with repo := r } : ParseState).repo = r := rfl

theorem ParseState.update_update (st : ParseState) (a b : String) :
    ({ { st with repo := a } with repo := b } : ParseState) = { st with repo := b } := rfl

theorem ParseState.update_self (st : ParseState) :
    ({ st with repo := st.repo } : ParseState) = st := rfl

theorem parseStep_split (oe : String) (st : ParseState) (r : String) (m : Message) :
    parseStep oe { st with repo := r } m = { parseStep oe st m with repo := repoUpd r m } := by
  unfold parseStep
  rw [lgtmStep_repo, helloStep_repo, repoStep_eq, repoStep_eq]
  rw [ParseState.repo_update, ParseState.update_update]
  rw [show ({ helloStep (lgtmStep st m) m with
        repo := repoUpd (helloStep (lgtmStep st m) m).repo m } : ParseState) =
      ({ { helloStep (lgtmStep st m) m with repo := (helloStep (lgtmStep st m) m).repo }
          with repo := repoUpd (helloStep (lgtmStep st m) m).repo m } : ParseState) by
    rw [ParseState.update_update]]
  rw [ParseState.update_self]
  simp only [submitStep_repo, explicitStep_repo, responderStep_repo,
             ParseState.update_update]

theorem foldl_parseStep_split (oe : String) (ms : List Message) (st : ParseState)
    (r : String) :
    ms.foldl (parseStep oe) { st with repo := r } =
      { ms.foldl (parseStep oe) st with repo := repoFold r ms } := by
  induction ms generalizing st r with
  | nil => rfl
  | cons m ms ih =>
    simp only [List.foldl_cons, repoFold, parseStep_split]
    rw [ih]
    rfl

theorem repoUpd_ne (r : String) (m : Message) (h : r ≠ "") : repoUpd r m = r := by
  unfold repoUpd
  cases h1 : helloRepoFind m.Text <;> cases h2 : helloRepo2Find m.Text <;> simp [h]

theorem repoFold_ne (ms : List Message) (r : String) (h : r ≠ "") :
    repoFold r ms = r := by
  induction ms with
  | nil => rfl
  | cons m ms ih => simp only [repoFold, List.foldl_cons, repoUpd_ne r m h]; exact ih

theorem listLe_total : ∀ a b : List Char, listLe a b = true ∨ listLe b a = true := by
  intro a
  induction a with
  | nil => intro b; left; rfl
  | cons x as ih =>
    intro b
    cases b with
    | nil => right; rfl
    | cons y bs =>
      by_cases h1 : x < y
      · left; simp [listLe, h1]
      · by_cases h2 : y < x
        · right; simp [listLe, h2]
        · have hxy : x = y := le_antisymm (not_lt.mp h2) (not_lt.mp h1)
          subst hxy
          rcases ih bs with h | h
          · left; simp [listLe, lt_irrefl, h]
          · right; simp [listLe, lt_irrefl, h]

theorem listLe_trans : ∀ a b c : List Char,
    listLe a b = true → listLe b c = true → listLe a c = true := by
  intro a
  induction a with
  | nil => intro b c _ _; rfl
  | cons x as ih =>
    intro b c hab hbc
    cases b with
    | nil => simp [listLe] at hab
    | cons y bs =>
      cases c with
      | nil => simp [listLe] at hbc
      | cons z cs =>
        simp only [listLe] at hab hbc ⊢
        by_cases h1 : x < y
        · -- x < y; combined with y ≤ z we get x < z
          by_cases h2 : y < z
          · rw [if_pos (lt_trans h1 h2)]
          · by_cases h3 : z < y
            · simp [h2, h3] at hbc
            · have : y = z := le_antisymm (not_lt.mp h3) (not_lt.mp h2)
              subst this; rw [if_pos h1]
        · by_cases h1b : y < x
          · simp [h1, h1b] at hab
          · have hxy : x = y := le_antisymm (not_lt.mp h1b) (not_lt.mp h1)
            subst hxy
            by_cases h2 : x < z
            · rw [if_pos h2]
            · by_cases h3 : z < x
              · simp [h2, h3] at hbc
              · have hxz : x = z := le_antisymm (not_lt.mp h3) (not_lt.mp h2)
                subst hxz
                simp only [lt_irrefl, if_neg (lt_irrefl x)] at hab hbc ⊢
                simp at hab hbc
                exact ih bs cs hab hbc

instance : IsTotal String (fun a b => strLeB a b = true) :=
  ⟨fun a b => listLe_total a.data b.data⟩

instance : IsTrans String (fun a b => strLeB a b = true) :=
  ⟨fun a b c => listLe_trans a.data b.data c.data⟩

instance : IsTotal dirCount dirLe where
  total x y := by
    unfold dirLe
    by_cases h : x.count = y.count
    · rcases listLe_total x.name.data y.name.data with hl | hl
      · left; right; exact ⟨h, hl⟩
      · right; right; exact ⟨h.symm, hl⟩
    · rcases lt_or_gt_of_ne h with hlt | hgt
      · right; left; exact hlt
      · left; left; exact hgt

instance : IsTrans dirCount dirLe where
  trans x y z hxy hyz := by
    unfold dirLe at hxy hyz ⊢
    rcases hxy with h1 | ⟨h1, h1b⟩ <;> rcases hyz with h2 | ⟨h2, h2b⟩
    · left; omega
    · left; omega
    · left; omega
    · right; exact ⟨h1.trans h2, listLe_trans _ _ _ h1b h2b⟩

theorem sortStrs_sorted (l : List String) :
    List.Sorted (fun a b => strLeB a b = true) (sortStrs l) :=
  List.sorted_insertionSort _ l

theorem sortStrs_idem (l : List String) : sortStrs (sortStrs l) = sortStrs l :=
  List.Sorted.insertionSort_eq (sortStrs_sorted l)

theorem trimRepo_of_pfx (r : String) (t : List Char)
    (ht : "code.google.com/p/go.".data ++ t = r.data) :
    trimRepo r = ⟨'g' :: 'o' :: '.' :: t⟩ := by
  unfold trimRepo
  rw [if_pos]
  · unfold trimPfx
    rw [if_pos (by rw [List.isPrefixOf_iff_prefix]; exact ⟨'g' :: 'o' :: '.' :: t, by rw [← ht]; rfl⟩)]
    congr 1
    rw [← ht, List.drop_append_of_le_length (by decide)]
    rfl
  · simp only [hasPfx, Bool.or_eq_true, decide_eq_true_eq]
    left
    rw [List.isPrefixOf_iff_prefix]
    exact ⟨t, ht⟩

theorem trimRepo_stable (t : List Char) :
    trimRepo ⟨'g' :: 'o' :: '.' :: t⟩ = ⟨'g' :: 'o' :: '.' :: t⟩ := by
  unfold trimRepo
  rw [if_neg]
  simp only [hasPfx, Bool.or_eq_true, decide_eq_true_eq]
  push_neg
  constructor
  · intro hcon
    rw [show ("code.google.com/p/go.".data.isPrefixOf ('g' :: 'o' :: '.' :: t)) = false from rfl] at hcon
    exact Bool.false_ne_true hcon
  · intro hcon
    have := congrArg String.data hcon
    simp at this

theorem trimRepo_of_ne (r : String)
    (hp : ¬ "code.google.com/p/go.".data.isPrefixOf r.data = true)
    (he : r ≠ "code.google.com/p/go") : trimRepo r = r := by
  unfold trimRepo
  rw [if_neg]
  simp only [hasPfx, Bool.or_eq_true, decide_eq_true_eq]
  push_neg
  exact ⟨by simpa using hp, he⟩

theorem trimRepo_idem (r : String) : trimRepo (trimRepo r) = trimRepo r := by
  by_cases hp : "code.google.com/p/go.".data.isPrefixOf r.data = true
  · rw [List.isPrefixOf_iff_prefix] at hp
    obtain ⟨t, ht⟩ := hp
    rw [trimRepo_of_pfx r t ht, trimRepo_stable]
  · by_cases he : r = "code.google.com/p/go"
    · subst he; decide
    · rw [trimRepo_of_ne r hp he, trimRepo_of_ne r hp he]

theorem trimRepo_empty_iff (r : String) : trimRepo r = "" ↔ r = "" := by
  constructor
  · intro h
    by_cases hp : "code.google.com/p/go.".data.isPrefixOf r.data = true
    · exfalso
      rw [List.isPrefixOf_iff_prefix] at hp
      obtain ⟨t, ht⟩ := hp
      rw [trimRepo_of_pfx r t ht] at h
      have := congrArg String.data h
      simp at this
    · by_cases he : r = "code.google.com/p/go"
      · subst he
        exact absurd h (by decide)
      · rwa [trimRepo_of_ne r hp he] at h
  · intro h; subst h; rfl

/-- Normal form of `updateCL`: every derived field as a function of the raw
fields and the carried-over derived fields (`Dead`, `Repo`, `MailedIssue`,
`MessagesLoaded`, `PatchSetsLoaded`). -/
theorem updateCL_eq (now : Int) (cl : CL) :
    updateCL now cl =
      { cl with
        Mailed := (parsedOf cl).mailed,
        Submitted := (parsedOf cl).submitted,
        Repo := trimRepo (parsedOf cl).repo,
        LGTM := lgtmOf cl,
        NOTLGTM := notlgtmOf cl,
        PrimaryReviewer := prOf cl,
        NeedsReview := nrOf cl,
        HasReviewers := !cl.Reviewers.isEmpty,
        Active := activeOf now cl,
        DescIssue := sortStrs (issueAll cl.Desc),
        MailedIssue := sortStrs cl.MailedIssue,
        NeedMailIssue :=
          if activeOf now cl then
            sortStrs (needMailLoop (sortStrs cl.MailedIssue) [] (sortStrs (issueAll cl.Desc)))
          else [],
        MessagesLoaded := if cl.Dead then true else cl.MessagesLoaded,
        PatchSetsLoaded := if cl.Dead then true else cl.PatchSetsLoaded,
        Summary := summaryOf cl.Desc } := by
  unfold updateCL parseMessages parsedOf lgtmOf notlgtmOf prOf nrOf activeOf
  by_cases hd : cl.Dead <;>
    simp only [hd, if_true, if_false, Bool.not_true, Bool.not_false] <;> rfl

/-- Agreement on the raw mirrored fields of a CL (the fields the adapter
copies forward in `writeCL`, except `Submitted` which `updateCL` recomputes
from the messages). -/
def rawEq (a b : CL) : Prop :=
  a.CL = b.CL ∧ a.Desc = b.Desc ∧ a.Owner = b.Owner ∧ a.OwnerEmail = b.OwnerEmail ∧
  a.Created = b.Created ∧ a.Modified = b.Modified ∧ a.Messages = b.Messages ∧
  a.Reviewers = b.Reviewers ∧ a.CC = b.CC ∧ a.Closed = b.Closed ∧
  a.PatchSets = b.PatchSets

attribute [ext] CL

/-- Congruence for `updateCL`: the result is determined by the raw fields
together with the carried derived fields (`Dead`, `Repo`, `MailedIssue`,
`MessagesLoaded`, `PatchSetsLoaded`, `Files`, `MoreFiles`, `FilesModified`,
`Delta`) and `DV`; the recomputed derived fields of the input are ignored. -/
theorem updateCL_congr (now : Int) (a b : CL) (hraw : rawEq a b)
    (hDead : a.Dead = b.Dead) (hRepo : a.Repo = b.Repo)
    (hMI : a.MailedIssue = b.MailedIssue) (hML : a.MessagesLoaded = b.MessagesLoaded)
    (hPL : a.PatchSetsLoaded = b.PatchSetsLoaded) (hF : a.Files = b.Files)
    (hMF : a.MoreFiles = b.MoreFiles) (hFM : a.FilesModified = b.FilesModified)
    (hD : a.Delta = b.Delta) (hDV : a.DV = b.DV) :
    updateCL now a = updateCL now b := by
  obtain ⟨h1, h2, h3, h4, h5, h6, h7, h8, h9, h10, h11⟩ := hraw
  have hp : parsedOf a = parsedOf b := by
    unfold parsedOf; rw [h7, h4, hRepo]
  have hl : lgtmOf a = lgtmOf b := by unfold lgtmOf; rw [hp]
  have hn : notlgtmOf a = notlgtmOf b := by unfold notlgtmOf; rw [hp]
  have hpr : prOf a = prOf b := by unfold prOf; rw [hp, hl]
  have hnr : nrOf a = nrOf b := by unfold nrOf; rw [hp, hl, hpr, h7]
  have ha : activeOf now a = activeOf now b := by
    unfold activeOf; rw [hp, hpr, h8, h10, hDead, h6]
  rw [updateCL_eq, updateCL_eq]
  apply CL.ext <;>
    simp [hp, hl, hn, hpr, hnr, ha, h1, h2, h3, h4, h5, h6, h7, h8, h9, h10, h11,
          hDead, hRepo, hMI, hML, hPL, hF, hMF, hFM, hD, hDV]

theorem parsedOf_repo (cl : CL) : (parsedOf cl).repo = repoFold cl.Repo cl.Messages := by
  have h := foldl_parseStep_split cl.OwnerEmail cl.Messages
    ⟨[], [], "", "", "", false, false, cl.Repo⟩ cl.Repo
  unfold parsedOf
  rw [show ({ (⟨[], [], "", "", "", false, false, cl.Repo⟩ : ParseState) with
        repo := cl.Repo } : ParseState) = ⟨[], [], "", "", "", false, false, cl.Repo⟩ from rfl] at h
  rw [h]

theorem trim_repoFold_trim (r0 : String) (ms : List Message) :
    trimRepo (repoFold (trimRepo (repoFold r0 ms)) ms) = trimRepo (repoFold r0 ms) := by
  by_cases h : trimRepo (repoFold r0 ms) = ""
  · have hR : repoFold r0 ms = "" := (trimRepo_empty_iff _).mp h
    by_cases h0 : r0 = ""
    · subst h0
      rw [h, hR]
      decide
    · exact absurd (repoFold_ne ms r0 h0 ▸ hR) h0
  · rw [repoFold_ne ms _ h, trimRepo_idem]

theorem updateCL_idem (now : Int) (cl : CL) :
    updateCL now (updateCL now cl) = updateCL now cl := by
  have hum : (updateCL now cl).Messages = cl.Messages := by rw [updateCL_eq]
  have huo : (updateCL now cl).OwnerEmail = cl.OwnerEmail := by rw [updateCL_eq]
  have hur : (updateCL now cl).Repo = trimRepo (parsedOf cl).repo := by rw [updateCL_eq]
  have hpu : parsedOf (updateCL now cl) =
      { parsedOf cl with repo := repoFold (trimRepo (parsedOf cl).repo) cl.Messages } := by
    unfold parsedOf
    rw [hum, huo, hur]
    exact foldl_parseStep_split cl.OwnerEmail cl.Messages
      ⟨[], [], "", "", "", false, false, cl.Repo⟩ (trimRepo (parsedOf cl).repo)
  have hl : lgtmOf (updateCL now cl) = lgtmOf cl := by
    unfold lgtmOf; rw [hpu]
  have hn : notlgtmOf (updateCL now cl) = notlgtmOf cl := by
    unfold notlgtmOf; rw [hpu]
  have hpr : prOf (updateCL now cl) = prOf cl := by
    unfold prOf; rw [hpu, hl]
  have hnr : nrOf (updateCL now cl) = nrOf cl := by
    unfold nrOf; rw [hpu, hl, hpr, hum]
  have hrepo2 : trimRepo (parsedOf (updateCL now cl)).repo = trimRepo (parsedOf cl).repo := by
    rw [hpu]
    dsimp only
    rw [parsedOf_repo cl]
    exact trim_repoFold_trim cl.Repo cl.Messages
  have hact : activeOf now (updateCL now cl) = activeOf now cl := by
    unfold activeOf
    rw [hpu, hpr]
    rw [updateCL_eq]
  conv_lhs => rw [updateCL_eq]
  rw [hpu, hl, hn, hpr, hnr, hact]
  conv_rhs => rw [updateCL_eq]
  apply CL.ext <;> dsimp only <;>
    first
    | rfl
    | (rw [parsedOf_repo cl]; exact trim_repoFold_trim cl.Repo cl.Messages)
    | (by_cases hd : cl.Dead <;> simp [hd, updateCL_eq, sortStrs_idem])

/- ### Association-list and store lemmas -/

theorem lookupA_writeA {α : Type} (k : String) (v : α) (l : List (String × α)) :
    lookupA k (writeA k v l) = some v := by
  induction l with
  | nil => simp [writeA, lookupA]
  | cons kv rest ih =>
    obtain ⟨k1, v1⟩ := kv
    by_cases h : k1 = k <;> simp [writeA, lookupA, h, ih]

theorem writeA_writeA {α : Type} (k : String) (v : α) (l : List (String × α)) :
    writeA k v (writeA k v l) = writeA k v l := by
  induction l with
  | nil => simp [writeA]
  | cons kv rest ih =>
    obtain ⟨k1, v1⟩ := kv
    by_cases h : k1 = k <;> simp [writeA, h, ih]

/- ### Projection lemmas for `updateCL` -/

theorem updateCL_DV (now : Int) (cl : CL) : (updateCL now cl).DV = cl.DV := by
  rw [updateCL_eq]

theorem updateCL_CL (now : Int) (cl : CL) : (updateCL now cl).CL = cl.CL := by
  rw [updateCL_eq]

theorem updateCL_Desc (now : Int) (cl : CL) : (updateCL now cl).Desc = cl.Desc := by
  rw [updateCL_eq]

theorem updateCL_Owner (now : Int) (cl : CL) : (updateCL now cl).Owner = cl.Owner := by
  rw [updateCL_eq]

theorem updateCL_OwnerEmail (now : Int) (cl : CL) :
    (updateCL now cl).OwnerEmail = cl.OwnerEmail := by
  rw [updateCL_eq]

theorem updateCL_Created (now : Int) (cl : CL) : (updateCL now cl).Created = cl.Created := by
  rw [updateCL_eq]

theorem updateCL_Modified (now : Int) (cl : CL) :
    (updateCL now cl).Modified = cl.Modified := by
  rw [updateCL_eq]

theorem updateCL_Messages (now : Int) (cl : CL) :
    (updateCL now cl).Messages = cl.Messages := by
  rw [updateCL_eq]

theorem updateCL_Reviewers (now : Int) (cl : CL) :
    (updateCL now cl).Reviewers = cl.Reviewers := by
  rw [updateCL_eq]

theorem updateCL_CC (now : Int) (cl : CL) : (updateCL now cl).CC = cl.CC := by
  rw [updateCL_eq]

theorem updateCL_Closed (now : Int) (cl : CL) : (updateCL now cl).Closed = cl.Closed := by
  rw [updateCL_eq]

theorem updateCL_PatchSets (now : Int) (cl : CL) :
    (updateCL now cl).PatchSets = cl.PatchSets := by
  rw [updateCL_eq]

theorem updateCL_Dead (now : Int) (cl : CL) : (updateCL now cl).Dead = cl.Dead := by
  rw [updateCL_eq]

theorem updateCL_Files (now : Int) (cl : CL) : (updateCL now cl).Files = cl.Files := by
  rw [updateCL_eq]

theorem updateCL_MoreFiles (now : Int) (cl : CL) :
    (updateCL now cl).MoreFiles = cl.MoreFiles := by
  rw [updateCL_eq]

theorem updateCL_FilesModified (now : Int) (cl : CL) :
    (updateCL now cl).FilesModified = cl.FilesModified := by
  rw [updateCL_eq]

theorem updateCL_Delta (now : Int) (cl : CL) : (updateCL now cl).Delta = cl.Delta := by
  rw [updateCL_eq]

theorem updateCL_MailedIssue (now : Int) (cl : CL) :
    (updateCL now cl).MailedIssue = sortStrs cl.MailedIssue := by
  rw [updateCL_eq]

theorem updateCL_Mailed (now : Int) (cl : CL) :
    (updateCL now cl).Mailed = (parsedOf cl).mailed := by
  rw [updateCL_eq]

theorem updateCL_Submitted (now : Int) (cl : CL) :
    (updateCL now cl).Submitted = (parsedOf cl).submitted := by
  rw [updateCL_eq]

theorem updateCL_PrimaryReviewer (now : Int) (cl : CL) :
    (updateCL now cl).PrimaryReviewer = prOf cl := by
  rw [updateCL_eq]

theorem updateCL_HasReviewers (now : Int) (cl : CL) :
    (updateCL now cl).HasReviewers = !cl.Reviewers.isEmpty := by
  rw [updateCL_eq]

theorem updateCL_Active (now : Int) (cl : CL) :
    (updateCL now cl).Active = activeOf now cl := by
  rw [updateCL_eq]

theorem updateCL_MessagesLoaded (now : Int) (cl : CL) :
    (updateCL now cl).MessagesLoaded = if cl.Dead then true else cl.MessagesLoaded := by
  rw [updateCL_eq]

theorem updateCL_PatchSetsLoaded (now : Int) (cl : CL) :
    (updateCL now cl).PatchSetsLoaded = if cl.Dead then true else cl.PatchSetsLoaded := by
  rw [updateCL_eq]

/- ### `applyCLUpdater` lemmas -/

theorem CL_setDV_eq (x : CL) (h : x.DV = 20) : ({ x with DV := 20 } : CL) = x := by
  apply CL.ext <;> simp [h]

theorem applyCLUpdater_DV (now : Int) (o : CL) : (applyCLUpdater now o).DV = 20 := by
  unfold applyCLUpdater; rw [updateCL_DV]

theorem applyCLUpdater_idem (now : Int) (w : CL) :
    applyCLUpdater now (applyCLUpdater now w) = applyCLUpdater now w := by
  have h1 : ({ applyCLUpdater now w with DV := 20 } : CL) = applyCLUpdater now w :=
    CL_setDV_eq _ (applyCLUpdater_DV now w)
  show updateCL now { applyCLUpdater now w with DV := 20 } = _
  rw [h1]
  show updateCL now (updateCL now { w with DV := 20 }) = _
  exact updateCL_idem now { w with DV := 20 }

/- ### `copyCL` and merge-helper lemmas -/

theorem copyCL_CL (old cl : CL) : (copyCL old cl).CL = cl.CL := by
  unfold copyCL; dsimp only; split_ifs <;> rfl

theorem copyCL_Desc (old cl : CL) : (copyCL old cl).Desc = cl.Desc := by
  unfold copyCL; dsimp only; split_ifs <;> rfl

theorem copyCL_Owner (old cl : CL) : (copyCL old cl).Owner = cl.Owner := by
  unfold copyCL; dsimp only; split_ifs <;> rfl

theorem copyCL_OwnerEmail (old cl : CL) : (copyCL old cl).OwnerEmail = cl.OwnerEmail := by
  unfold copyCL; dsimp only; split_ifs <;> rfl

theorem copyCL_Created (old cl : CL) : (copyCL old cl).Created = cl.Created := by
  unfold copyCL; dsimp only; split_ifs <;> rfl

theorem copyCL_Modified (old cl : CL) : (copyCL old cl).Modified = cl.Modified := by
  unfold copyCL; dsimp only; split_ifs <;> rfl

theorem copyCL_MessagesLoaded (old cl : CL) :
    (copyCL old cl).MessagesLoaded = cl.MessagesLoaded := by
  unfold copyCL; dsimp only; split_ifs <;> rfl

theorem copyCL_Messages (old cl : CL) :
    (copyCL old cl).Messages = if cl.MessagesLoaded then cl.Messages else old.Messages := by
  unfold copyCL; dsimp only; split_ifs <;> rfl

theorem copyCL_Submitted (old cl : CL) :
    (copyCL old cl).Submitted = if cl.MessagesLoaded then cl.Submitted else old.Submitted := by
  unfold copyCL; dsimp only; split_ifs <;> rfl

theorem copyCL_Reviewers (old cl : CL) : (copyCL old cl).Reviewers = cl.Reviewers := by
  unfold copyCL; dsimp only; split_ifs <;> rfl

theorem copyCL_CC (old cl : CL) : (copyCL old cl).CC = cl.CC := by
  unfold copyCL; dsimp only; split_ifs <;> rfl

theorem copyCL_Closed (old cl : CL) : (copyCL old cl).Closed = cl.Closed := by
  unfold copyCL; dsimp only; split_ifs <;> rfl

theorem copyCL_Dead (old cl : CL) : (copyCL old cl).Dead = old.Dead := by
  unfold copyCL; dsimp only; split_ifs <;> rfl

theorem copyCL_PatchSets (old cl : CL) : (copyCL old cl).PatchSets = cl.PatchSets := by
  unfold copyCL
  dsimp only
  split_ifs with h1 h2 h3
  · rfl
  · simp only [Decidable.not_not] at h2
    exact h2
  · rfl
  · simp only [Decidable.not_not] at h3
    exact h3

theorem CL_set_Dead (x : CL) (b : Bool) (h : x.Dead = b) : ({ x with Dead := b } : CL) = x := by
  apply CL.ext <;> simp [h]

theorem copyCL_absorb (u cl : CL)
    (hCL : u.CL = cl.CL) (hDesc : u.Desc = cl.Desc) (hOwner : u.Owner = cl.Owner)
    (hOE : u.OwnerEmail = cl.OwnerEmail) (hCr : u.Created = cl.Created)
    (hMod : u.Modified = cl.Modified) (hML : u.MessagesLoaded = cl.MessagesLoaded)
    (hMsgs : cl.MessagesLoaded = true → u.Messages = cl.Messages)
    (hRev : u.Reviewers = cl.Reviewers) (hCC : u.CC = cl.CC) (hCl : u.Closed = cl.Closed)
    (hPS : u.PatchSets = cl.PatchSets) :
    copyCL u cl =
      { u with Submitted := if cl.MessagesLoaded then cl.Submitted else u.Submitted } := by
  unfold copyCL
  dsimp only
  by_cases hml : cl.MessagesLoaded = true
  · simp only [hml, if_true]
    rw [if_neg (by simp [hPS])]
    apply CL.ext <;>
      simp [hCL, hDesc, hOwner, hOE, hCr, hMod, hML, hMsgs hml, hRev, hCC, hCl, hml]
  · simp only [Bool.not_eq_true] at hml
    simp only [hml, Bool.false_eq_true, if_false]
    rw [if_neg (by simp [hPS])]
    apply CL.ext <;>
      simp [hCL, hDesc, hOwner, hOE, hCr, hMod, hML, hRev, hCC, hCl, hml]

theorem applyCLUpdater_Dead (now : Int) (o : CL) :
    (applyCLUpdater now o).Dead = o.Dead := by
  unfold applyCLUpdater; rw [updateCL_Dead]

theorem applyCLUpdater_Modified (now : Int) (o : CL) :
    (applyCLUpdater now o).Modified = o.Modified := by
  unfold applyCLUpdater; rw [updateCL_Modified]

theorem applyCLUpdater_CLf (now : Int) (o : CL) :
    (applyCLUpdater now o).CL = o.CL := by
  unfold applyCLUpdater; rw [updateCL_CL]

theorem applyCLUpdater_Desc (now : Int) (o : CL) :
    (applyCLUpdater now o).Desc = o.Desc := by
  unfold applyCLUpdater; rw [updateCL_Desc]

theorem applyCLUpdater_Owner (now : Int) (o : CL) :
    (applyCLUpdater now o).Owner = o.Owner := by
  unfold applyCLUpdater; rw [updateCL_Owner]

theorem applyCLUpdater_OwnerEmail (now : Int) (o : CL) :
    (applyCLUpdater now o).OwnerEmail = o.OwnerEmail := by
  unfold applyCLUpdater; rw [updateCL_OwnerEmail]

theorem applyCLUpdater_Created (now : Int) (o : CL) :
    (applyCLUpdater now o).Created = o.Created := by
  unfold applyCLUpdater; rw [updateCL_Created]

theorem applyCLUpdater_Messages (now : Int) (o : CL) :
    (applyCLUpdater now o).Messages = o.Messages := by
  unfold applyCLUpdater; rw [updateCL_Messages]

theorem applyCLUpdater_Reviewers (now : Int) (o : CL) :
    (applyCLUpdater now o).Reviewers = o.Reviewers := by
  unfold applyCLUpdater; rw [updateCL_Reviewers]

theorem applyCLUpdater_CC (now : Int) (o : CL) :
    (applyCLUpdater now o).CC = o.CC := by
  unfold applyCLUpdater; rw [updateCL_CC]

theorem applyCLUpdater_Closed (now : Int) (o : CL) :
    (applyCLUpdater now o).Closed = o.Closed := by
  unfold applyCLUpdater; rw [updateCL_Closed]

theorem applyCLUpdater_PatchSets (now : Int) (o : CL) :
    (applyCLUpdater now o).PatchSets = o.PatchSets := by
  unfold applyCLUpdater; rw [updateCL_PatchSets]

theorem applyCLUpdater_MessagesLoaded (now : Int) (o : CL) :
    (applyCLUpdater now o).MessagesLoaded = if o.Dead then true else o.MessagesLoaded := by
  unfold applyCLUpdater; rw [updateCL_MessagesLoaded]

theorem applyCLUpdater_PatchSetsLoaded (now : Int) (o : CL) :
    (applyCLUpdater now o).PatchSetsLoaded = if o.Dead then true else o.PatchSetsLoaded := by
  unfold applyCLUpdater; rw [updateCL_PatchSetsLoaded]

theorem applyCLUpdater_submitted_congr (now : Int) (u : CL) (z : Bool) :
    applyCLUpdater now { u with Submitted := z } = applyCLUpdater now u := by
  unfold applyCLUpdater
  apply updateCL_congr <;> simp [rawEq]

/- ### Characterization of `writeCL` paths -/

theorem writeCL_missing (now : Int) (st : CLStore) (cl : CL) (mk md : String)
    (hkey : cl.CL = "") : writeCL now st cl mk md = (some "missing key", st) := by
  unfold writeCL; rw [if_pos hkey]

theorem writeCL_dead_eq (now : Int) (st : CLStore) (cl : CL) (mk md : String)
    (hkey : ¬ cl.CL = "") (hd : cl.Dead = true) :
    writeCL now st cl mk md =
      (none,
       { cls := writeA cl.CL
           (applyCLUpdater now { readOldCL now st cl.CL with Dead := true }) st.cls,
         meta := if mk ≠ "" then writeA mk md st.meta else st.meta,
         count := if (readOldCL now st cl.CL).CL = "" then st.count + 1 else st.count }) := by
  unfold writeCL
  rw [if_neg hkey]
  dsimp only
  rw [if_pos hd]

theorem writeCL_stale_eq (now : Int) (st : CLStore) (cl : CL) (mk md : String)
    (hkey : ¬ cl.CL = "") (hd : cl.Dead = false)
    (hstale : (readOldCL now st cl.CL).Modified > cl.Modified) :
    writeCL now st cl mk md = (some "CL: have newer modification time", st) := by
  unfold writeCL
  rw [if_neg hkey]
  dsimp only
  rw [if_neg (by simp [hd]), if_pos hstale]

theorem writeCL_live_eq (now : Int) (st : CLStore) (cl : CL) (mk md : String)
    (hkey : ¬ cl.CL = "") (hd : cl.Dead = false)
    (hok : ¬ (readOldCL now st cl.CL).Modified > cl.Modified) :
    writeCL now st cl mk md =
      (none,
       { cls := writeA cl.CL
           (applyCLUpdater now (copyCL { readOldCL now st cl.CL with Dead := false } cl)) st.cls,
         meta := if mk ≠ "" then writeA mk md st.meta else st.meta,
         count := if (readOldCL now st cl.CL).CL = "" then st.count + 1 else st.count }) := by
  unfold writeCL
  rw [if_neg hkey]
  dsimp only
  rw [if_neg (by simp [hd]), if_neg hok]

theorem readOldCL_writeA (now : Int) (st : CLStore) (k : String) (u : CL)
    (meta2 : List (String × String)) (count2 : Int) :
    readOldCL now { cls := writeA k u st.cls, meta := meta2, count := count2 } k =
      applyCLUpdater now u := by
  unfold readOldCL
  dsimp only
  rw [lookupA_writeA]

theorem writeCL_twice (now : Int) (st : CLStore) (cl : CL) (mk md : String) (st1 : CLStore)
    (h : writeCL now st cl mk md = (none, st1)) :
    ∃ st2, writeCL now st1 cl mk md = (none, st2) ∧ st2.cls = st1.cls ∧ st2.meta = st1.meta := by
  by_cases hkey : cl.CL = ""
  · rw [writeCL_missing now st cl mk md hkey] at h
    exact absurd h (by simp)
  · by_cases hd : cl.Dead = true
    · -- dead-tombstone path
      rw [writeCL_dead_eq now st cl mk md hkey hd] at h
      have hst1 : st1 =
          { cls := writeA cl.CL
              (applyCLUpdater now { readOldCL now st cl.CL with Dead := true }) st.cls,
            meta := if mk ≠ "" then writeA mk md st.meta else st.meta,
            count := if (readOldCL now st cl.CL).CL = "" then st.count + 1 else st.count } := by
        have := congrArg Prod.snd h
        simpa using this.symm
      set u := applyCLUpdater now { readOldCL now st cl.CL with Dead := true } with hu
      have hread : readOldCL now st1 cl.CL = u := by
        rw [hst1, readOldCL_writeA, hu, applyCLUpdater_idem]
      have hud : u.Dead = true := by
        rw [hu, applyCLUpdater_Dead]
      refine ⟨_, writeCL_dead_eq now st1 cl mk md hkey hd, ?_, ?_⟩
      · dsimp only
        rw [hread, CL_set_Dead u true hud]
        rw [show applyCLUpdater now u = u from by rw [hu, applyCLUpdater_idem]]
        rw [hst1]
        dsimp only
        rw [writeA_writeA]
      · dsimp only
        rw [hst1]
        dsimp only
        by_cases hmk : mk = "" <;> simp [hmk, writeA_writeA]
    · -- live merge path
      have hdf : cl.Dead = false := by simpa using hd
      by_cases hstale : (readOldCL now st cl.CL).Modified > cl.Modified
      · rw [writeCL_stale_eq now st cl mk md hkey hdf hstale] at h
        exact absurd h (by simp)
      · rw [writeCL_live_eq now st cl mk md hkey hdf hstale] at h
        have hst1 : st1 =
            { cls := writeA cl.CL
                (applyCLUpdater now
                  (copyCL { readOldCL now st cl.CL with Dead := false } cl)) st.cls,
              meta := if mk ≠ "" then writeA mk md st.meta else st.meta,
              count := if (readOldCL now st cl.CL).CL = "" then st.count + 1 else st.count } := by
          have := congrArg Prod.snd h
          simpa using this.symm
        set u := applyCLUpdater now
            (copyCL { readOldCL now st cl.CL with Dead := false } cl) with hu
        have hread : readOldCL now st1 cl.CL = u := by
          rw [hst1, readOldCL_writeA, hu, applyCLUpdater_idem]
        have huMod : u.Modified = cl.Modified := by
          rw [hu, applyCLUpdater_Modified, copyCL_Modified]
        have huDead : u.Dead = false := by
          rw [hu, applyCLUpdater_Dead, copyCL_Dead]
        have huCL : u.CL = cl.CL := by
          rw [hu, applyCLUpdater_CLf, copyCL_CL]
        have huDesc : u.Desc = cl.Desc := by
          rw [hu, applyCLUpdater_Desc, copyCL_Desc]
        have huOwner : u.Owner = cl.Owner := by
          rw [hu, applyCLUpdater_Owner, copyCL_Owner]
        have huOE : u.OwnerEmail = cl.OwnerEmail := by
          rw [hu, applyCLUpdater_OwnerEmail, copyCL_OwnerEmail]
        have huCr : u.Created = cl.Created := by
          rw [hu, applyCLUpdater_Created, copyCL_Created]
        have huML : u.MessagesLoaded = cl.MessagesLoaded := by
          rw [hu, applyCLUpdater_MessagesLoaded, copyCL_Dead]
          dsimp only
          rw [if_neg (by simp [hdf])]
          rw [copyCL_MessagesLoaded]
        have huMsgs : cl.MessagesLoaded = true → u.Messages = cl.Messages := by
          intro hml
          rw [hu, applyCLUpdater_Messages, copyCL_Messages, if_pos hml]
        have huRev : u.Reviewers = cl.Reviewers := by
          rw [hu, applyCLUpdater_Reviewers, copyCL_Reviewers]
        have huCC : u.CC = cl.CC := by
          rw [hu, applyCLUpdater_CC, copyCL_CC]
        have huCl : u.Closed = cl.Closed := by
          rw [hu, applyCLUpdater_Closed, copyCL_Closed]
        have huPS : u.PatchSets = cl.PatchSets := by
          rw [hu, applyCLUpdater_PatchSets, copyCL_PatchSets]
        have hok2 : ¬ (readOldCL now st1 cl.CL).Modified > cl.Modified := by
          rw [hread, huMod]; exact lt_irrefl _
        refine ⟨_, writeCL_live_eq now st1 cl mk md hkey hdf hok2, ?_, ?_⟩
        · dsimp only
          rw [hread, CL_set_Dead u false huDead]
          rw [copyCL_absorb u cl huCL huDesc huOwner huOE huCr huMod huML huMsgs
              huRev huCC huCl huPS]
          rw [applyCLUpdater_submitted_congr]
          rw [show applyCLUpdater now u = u from by rw [hu, applyCLUpdater_idem]]
          rw [hst1]
          dsimp only
          rw [writeA_writeA]
        · dsimp only
          rw [hst1]
          dsimp only
          by_cases hmk : mk = "" <;> simp [hmk, writeA_writeA]

/- ### Issue-side helper lemmas -/

attribute [ext] Issue

theorem updateIssue_Modified (i : Issue) : (updateIssue i).Modified = i.Modified := by
  unfold updateIssue; split_ifs <;> rfl

theorem updateIssue_ID (i : Issue) : (updateIssue i).ID = i.ID := by
  unfold updateIssue; split_ifs <;> rfl

theorem updateIssue_DV (i : Issue) : (updateIssue i).DV = i.DV := by
  unfold updateIssue; split_ifs <;> rfl

theorem applyIssueUpdater_Modified (i : Issue) :
    (applyIssueUpdater i).Modified = i.Modified := by
  unfold applyIssueUpdater; rw [updateIssue_Modified]

theorem applyIssueUpdater_ID (i : Issue) : (applyIssueUpdater i).ID = i.ID := by
  unfold applyIssueUpdater; rw [updateIssue_ID]

theorem applyIssueUpdater_DV (i : Issue) : (applyIssueUpdater i).DV = 3 := by
  unfold applyIssueUpdater; rw [updateIssue_DV]

theorem Issue_setDV_eq (x : Issue) (h : x.DV = 3) : ({ x with DV := 3 } : Issue) = x := by
  apply Issue.ext <;> simp [h]

theorem updateIssue_idem (i : Issue) : updateIssue (updateIssue i) = updateIssue i := by
  unfold updateIssue
  by_cases h : i.Label.contains "IssueMoved" = true
  · rw [if_pos h, if_pos h]
  · rw [if_neg h]
    rw [if_neg (show ¬ ({ i with NeedGithubNote := true } : Issue).Label.contains
      "IssueMoved" = true from h)]

theorem applyIssueUpdater_idem (i : Issue) :
    applyIssueUpdater (applyIssueUpdater i) = applyIssueUpdater i := by
  have h1 : ({ applyIssueUpdater i with DV := 3 } : Issue) = applyIssueUpdater i :=
    Issue_setDV_eq _ (applyIssueUpdater_DV i)
  show updateIssue { applyIssueUpdater i with DV := 3 } = _
  rw [h1]
  show updateIssue (updateIssue { i with DV := 3 }) = _
  exact updateIssue_idem { i with DV := 3 }

theorem copyIssue_mirror (old issue : Issue) :
    (copyIssue old issue).ID = issue.ID ∧ (copyIssue old issue).Summary = issue.Summary ∧
    (copyIssue old issue).Status = issue.Status ∧
    (copyIssue old issue).Duplicate = issue.Duplicate ∧
    (copyIssue old issue).Owner = issue.Owner ∧ (copyIssue old issue).CC = issue.CC ∧
    (copyIssue old issue).Label = issue.Label ∧
    (copyIssue old issue).Comment = issue.Comment ∧
    (copyIssue old issue).State = issue.State ∧
    (copyIssue old issue).Created = issue.Created ∧
    (copyIssue old issue).Modified = issue.Modified ∧
    (copyIssue old issue).Stars = issue.Stars ∧
    (copyIssue old issue).ClosedDate = issue.ClosedDate := by
  unfold copyIssue
  refine ⟨rfl, rfl, rfl, rfl, rfl, rfl, rfl, rfl, rfl, rfl, rfl, rfl, rfl⟩

theorem updateIssue_mirror (i : Issue) :
    (updateIssue i).ID = i.ID ∧ (updateIssue i).Summary = i.Summary ∧
    (updateIssue i).Status = i.Status ∧ (updateIssue i).Duplicate = i.Duplicate ∧
    (updateIssue i).Owner = i.Owner ∧ (updateIssue i).CC = i.CC ∧
    (updateIssue i).Label = i.Label ∧ (updateIssue i).Comment = i.Comment ∧
    (updateIssue i).State = i.State ∧ (updateIssue i).Created = i.Created ∧
    (updateIssue i).Modified = i.Modified ∧ (updateIssue i).Stars = i.Stars ∧
    (updateIssue i).ClosedDate = i.ClosedDate := by
  unfold updateIssue
  split_ifs <;> exact ⟨rfl, rfl, rfl, rfl, rfl, rfl, rfl, rfl, rfl, rfl, rfl, rfl, rfl⟩

theorem copyIssue_absorb (u issue : Issue)
    (hID : u.ID = issue.ID) (hSum : u.Summary = issue.Summary)
    (hSt : u.Status = issue.Status) (hDup : u.Duplicate = issue.Duplicate)
    (hOwn : u.Owner = issue.Owner) (hCC : u.CC = issue.CC) (hLab : u.Label = issue.Label)
    (hCom : u.Comment = issue.Comment) (hState : u.State = issue.State)
    (hCr : u.Created = issue.Created) (hMod : u.Modified = issue.Modified)
    (hStars : u.Stars = issue.Stars) (hCD : u.ClosedDate = issue.ClosedDate) :
    copyIssue u issue = u := by
  unfold copyIssue
  apply Issue.ext <;>
    simp [hID, hSum, hSt, hDup, hOwn, hCC, hLab, hCom, hState, hCr, hMod, hStars, hCD]

/- ### Characterization of `writeIssue` paths -/

theorem writeIssue_stale_eq (st : IssueStore) (issue : Issue) (sk : String) (s : Int)
    (hstale : (readOldIssue st (issueKey issue.ID)).Modified > issue.Modified) :
    writeIssue st issue sk s = (some "issue: have newer modification time", st) := by
  unfold writeIssue
  dsimp only
  rw [if_pos hstale]

theorem writeIssue_ok_eq (st : IssueStore) (issue : Issue) (sk : String) (s : Int)
    (hok : ¬ (readOldIssue st (issueKey issue.ID)).Modified > issue.Modified) :
    writeIssue st issue sk s =
      (none,
       { issues := writeA (issueKey issue.ID)
           (applyIssueUpdater (copyIssue (readOldIssue st (issueKey issue.ID)) issue))
           st.issues,
         meta :=
           (let meta1 :=
             if (readOldIssue st (issueKey issue.ID)).ID = 0 then
               writeA "issue.count" ((lookupA "issue.count" st.meta).getD 0 + 1) st.meta
             else st.meta
            if sk ≠ "" then writeA sk s meta1 else meta1) }) := by
  unfold writeIssue
  dsimp only
  rw [if_neg hok]

theorem readOldIssue_writeA (st : IssueStore) (k : String) (u : Issue)
    (meta2 : List (String × Int)) :
    readOldIssue { issues := writeA k u st.issues, meta := meta2 } k =
      applyIssueUpdater u := by
  unfold readOldIssue
  dsimp only
  rw [lookupA_writeA]

theorem writeIssue_twice (st : IssueStore) (issue : Issue) (sk : String) (s : Int)
    (st1 : IssueStore) (h : writeIssue st issue sk s = (none, st1)) :
    ∃ st2, writeIssue st1 issue sk s = (none, st2) ∧ st2.issues = st1.issues := by
  by_cases hstale : (readOldIssue st (issueKey issue.ID)).Modified > issue.Modified
  · rw [writeIssue_stale_eq st issue sk s hstale] at h
    exact absurd h (by simp)
  · rw [writeIssue_ok_eq st issue sk s hstale] at h
    have hst1 : st1 =
        { issues := writeA (issueKey issue.ID)
            (applyIssueUpdater (copyIssue (readOldIssue st (issueKey issue.ID)) issue))
            st.issues,
          meta :=
            (let meta1 :=
              if (readOldIssue st (issueKey issue.ID)).ID = 0 then
                writeA "issue.count" ((lookupA "issue.count" st.meta).getD 0 + 1) st.meta
              else st.meta
             if sk ≠ "" then writeA sk s meta1 else meta1) } := by
      have := congrArg Prod.snd h
      simpa using this.symm
    set u := applyIssueUpdater (copyIssue (readOldIssue st (issueKey issue.ID)) issue)
      with hu
    have hread : readOldIssue st1 (issueKey issue.ID) = u := by
      rw [hst1, readOldIssue_writeA, hu, applyIssueUpdater_idem]
    obtain ⟨c1, c2, c3, c4, c5, c6, c7, c8, c9, c10, c11, c12, c13⟩ :=
      copyIssue_mirror (readOldIssue st (issueKey issue.ID)) issue
    obtain ⟨m1, m2, m3, m4, m5, m6, m7, m8, m9, m10, m11, m12, m13⟩ :=
      updateIssue_mirror ({ copyIssue (readOldIssue st (issueKey issue.ID)) issue with
        DV := 3 })
    have huMod : u.Modified = issue.Modified := by
      rw [hu]
      show (updateIssue _).Modified = _
      rw [m11]
      exact c11
    have hok2 : ¬ (readOldIssue st1 (issueKey issue.ID)).Modified > issue.Modified := by
      rw [hread, huMod]; exact lt_irrefl _
    refine ⟨_, writeIssue_ok_eq st1 issue sk s hok2, ?_⟩
    dsimp only
    rw [hread]
    have habs : copyIssue u issue = u := by
      apply copyIssue_absorb <;> rw [hu] <;>
        first
        | (show (updateIssue _).ID = _; rw [m1]; exact c1)
        | (show (updateIssue _).Summary = _; rw [m2]; exact c2)
        | (show (updateIssue _).Status = _; rw [m3]; exact c3)
        | (show (updateIssue _).Duplicate = _; rw [m4]; exact c4)
        | (show (updateIssue _).Owner = _; rw [m5]; exact c5)
        | (show (updateIssue _).CC = _; rw [m6]; exact c6)
        | (show (updateIssue _).Label = _; rw [m7]; exact c7)
        | (show (updateIssue _).Comment = _; rw [m8]; exact c8)
        | (show (updateIssue _).State = _; rw [m9]; exact c9)
        | (show (updateIssue _).Created = _; rw [m10]; exact c10)
        | (show (updateIssue _).Modified = _; rw [m11]; exact c11)
        | (show (updateIssue _).Stars = _; rw [m12]; exact c12)
        | (show (updateIssue _).ClosedDate = _; rw [m13]; exact c13)
    rw [habs]
    rw [show applyIssueUpdater u = u from by rw [hu, applyIssueUpdater_idem]]
    rw [hst1]
    dsimp only
    rw [writeA_writeA]

/- ### Lock lemmas -/

theorem lockAcquire_spec (now dt : Int) (st : Option Int) (hnow : 0 ≤ now) :
    ((lockAcquire now dt st).1 = true ↔ ¬ ∃ t, st = some t ∧ now < t) ∧
    ((lockAcquire now dt st).1 = true → (lockAcquire now dt st).2 = some (now + dt)) := by
  unfold lockAcquire lockExpiry
  cases st with
  | none =>
    simp only [Option.getD_none]
    rw [if_neg (by omega)]
    simp
  | some t =>
    simp only [Option.getD_some]
    by_cases hlt : now < t
    · rw [if_pos hlt]
      simp [hlt]
    · rw [if_neg hlt]
      simp [hlt]

theorem lockAcquire_expiry (now dt : Int) (st : Option Int)
    (h : (lockAcquire now dt st).1 = true) :
    (lockAcquire now dt st).2 = some (now + dt) := by
  unfold lockAcquire at h ⊢
  split_ifs at h ⊢ with hc
  rfl

theorem runLocks_all_false (dt e : Int) (ts : List Int) (hts : ∀ t ∈ ts, t < e) :
    (∀ b ∈ (runLocks dt (some e) ts).1, b = false) ∧
    (runLocks dt (some e) ts).2 = some e := by
  induction ts with
  | nil => simp [runLocks]
  | cons t rest ih =>
    have ht : t < e := hts t (by simp)
    have hstep : lockAcquire t dt (some e) = (false, some e) := by
      unfold lockAcquire lockExpiry
      rw [if_pos (by simpa using ht)]
    have hrest := ih (fun t2 h2 => hts t2 (by simp [h2]))
    simp only [runLocks, hstep]
    constructor
    · intro b hb
      rcases List.mem_cons.mp hb with hb1 | hb2
      · exact hb1
      · exact hrest.1 b hb2
    · exact hrest.2

/- ### Load-loop lemmas -/

theorem loadLoop_full (feed : Feed) (hfeed : ∀ d lo hi, (feed d lo hi).length = 500)
    (st : IssueStore) :
    ∀ (n : Nat) (mtime now : Int) (try0 : Nat), (now - mtime).toNat ≤ n →
      loadLoop feed st mtime now try0 = (.cannotShrink, st) := by
  intro n
  induction n with
  | zero =>
    intro mtime now try0 hn
    rw [loadLoop.eq_def]
    dsimp only
    rw [if_neg (by rw [hfeed]; norm_num), if_neg (by rw [hfeed]; norm_num)]
    rw [if_pos (show now - mtime ≤ 2 * secondNs by unfold secondNs; omega)]
  | succ n ih =>
    intro mtime now try0 hn
    rw [loadLoop.eq_def]
    dsimp only
    rw [if_neg (by rw [hfeed]; norm_num), if_neg (by rw [hfeed]; norm_num)]
    by_cases hw : now - mtime ≤ 2 * secondNs
    · rw [if_pos hw]
    · rw [if_neg hw]
      unfold secondNs at hw
      by_cases hh : now - mtime > hourNs
      · rw [if_pos hh]
        apply ih
        unfold hourNs at hh
        omega
      · rw [if_neg hh]
        apply ih
        omega

/- ### Merge-loop and checkpoint lemmas -/

theorem lookupA_writeA_other {α : Type} (k k2 : String) (v : α) (l : List (String × α))
    (hne : k ≠ k2) : lookupA k (writeA k2 v l) = lookupA k l := by
  induction l with
  | nil =>
    simp only [writeA, lookupA]
    rw [if_neg (fun h => hne h.symm)]
  | cons kv rest ih =>
    obtain ⟨k1, v1⟩ := kv
    by_cases h2 : k1 = k2
    · subst h2
      simp only [writeA, if_pos rfl, lookupA]
      rw [if_neg (fun h => hne h.symm), if_neg (fun h => hne h.symm)]
    · by_cases h1 : k1 = k
      · simp only [writeA, if_neg h2, lookupA, if_pos h1]
      · simp only [writeA, if_neg h2, lookupA, if_neg h1]
        exact ih

theorem lookupA_writeA_isSome {α : Type} (k k2 : String) (v : α) (l : List (String × α))
    (h : (lookupA k l).isSome = true) : (lookupA k (writeA k2 v l)).isSome = true := by
  by_cases he : k = k2
  · subst he
    simp [lookupA_writeA]
  · rw [lookupA_writeA_other k k2 v l he]
    exact h

theorem writeIssue_isSome_mono (st : IssueStore) (i : Issue) (sk : String) (s : Int)
    (k : String) (h : (lookupA k st.issues).isSome = true) :
    (lookupA k (writeIssue st i sk s).2.issues).isSome = true := by
  by_cases hstale : (readOldIssue st (issueKey i.ID)).Modified > i.Modified
  · rw [writeIssue_stale_eq st i sk s hstale]
    exact h
  · rw [writeIssue_ok_eq st i sk s hstale]
    exact lookupA_writeA_isSome k _ _ st.issues h

theorem writeIssue_self_isSome (st : IssueStore) (i : Issue) (sk : String) (s : Int)
    (st1 : IssueStore) (h : writeIssue st i sk s = (none, st1)) :
    (lookupA (issueKey i.ID) st1.issues).isSome = true := by
  by_cases hstale : (readOldIssue st (issueKey i.ID)).Modified > i.Modified
  · rw [writeIssue_stale_eq st i sk s hstale] at h
    exact absurd h (by simp)
  · rw [writeIssue_ok_eq st i sk s hstale] at h
    have := congrArg Prod.snd h
    simp only at this
    rw [← this]
    simp [lookupA_writeA]

theorem mergeList_isSome_mono (l : List Issue) (st : IssueStore) (mtime : Int)
    (k : String) (h : (lookupA k st.issues).isSome = true) :
    (lookupA k (mergeList st mtime l).2.1.issues).isSome = true := by
  induction l generalizing st mtime with
  | nil => exact h
  | cons i rest ih =>
    simp only [mergeList]
    rcases hw : writeIssue st i "" 0 with ⟨e, stW⟩
    cases e with
    | none =>
      simp only
      exact ih stW _ (by
        have := writeIssue_isSome_mono st i "" 0 k h
        rwa [hw] at this)
    | some msg =>
      simp only
      have hst : stW = st := by
        by_cases hstale : (readOldIssue st (issueKey i.ID)).Modified > i.Modified
        · have h2 := hw.symm.trans (writeIssue_stale_eq st i "" 0 hstale)
          exact congrArg Prod.snd h2
        · have h2 := hw.symm.trans (writeIssue_ok_eq st i "" 0 hstale)
          simp at h2
      rw [hst]
      exact h

theorem mergeList_ok_facts (l : List Issue) (st : IssueStore) (mtime : Int)
    (st1 : IssueStore) (m1 : Int) (h : mergeList st mtime l = (true, st1, m1)) :
    m1 = l.foldl (fun t i => if t < i.Modified then i.Modified else t) mtime ∧
    ∀ i ∈ l, (lookupA (issueKey i.ID) st1.issues).isSome = true := by
  induction l generalizing st mtime with
  | nil =>
    simp only [mergeList, Prod.mk.injEq] at h
    exact ⟨h.2.2.symm, by simp⟩
  | cons i rest ih =>
    simp only [mergeList] at h
    rcases hw : writeIssue st i "" 0 with ⟨e, stW⟩
    rw [hw] at h
    cases e with
    | some msg => simp at h
    | none =>
      simp only at h
      have hrec := ih stW _ h
      refine ⟨by simpa using hrec.1, ?_⟩
      intro j hj
      rcases List.mem_cons.mp hj with hj1 | hj2
      · subst hj1
        have hself := writeIssue_self_isSome st j "" 0 stW hw
        have := mergeList_isSome_mono rest stW
          (if mtime < j.Modified then j.Modified else mtime) (issueKey j.ID) hself
        rwa [h] at this
      · exact hrec.2 j hj2

theorem foldMax_le (l : List Issue) (t0 : Int) :
    t0 ≤ l.foldl (fun t i => if t < i.Modified then i.Modified else t) t0 := by
  induction l generalizing t0 with
  | nil => simp
  | cons i rest ih =>
    simp only [List.foldl_cons]
    calc t0 ≤ (if t0 < i.Modified then i.Modified else t0) := by split <;> omega
    _ ≤ _ := ih _

theorem foldMax_ge (l : List Issue) (t0 : Int) :
    ∀ i ∈ l, i.Modified ≤ l.foldl (fun t i => if t < i.Modified then i.Modified else t) t0 := by
  induction l generalizing t0 with
  | nil => simp
  | cons i rest ih =>
    intro j hj
    rcases List.mem_cons.mp hj with hj1 | hj2
    · subst hj1
      simp only [List.foldl_cons]
      calc j.Modified ≤ (if t0 < j.Modified then j.Modified else t0) := by split <;> omega
      _ ≤ _ := foldMax_le rest _
    · exact ih _ j hj2

theorem foldMax_mem (l : List Issue) (t0 : Int) :
    l.foldl (fun t i => if t < i.Modified then i.Modified else t) t0 = t0 ∨
    ∃ i ∈ l, l.foldl (fun t i => if t < i.Modified then i.Modified else t) t0 = i.Modified := by
  induction l generalizing t0 with
  | nil => simp
  | cons i rest ih =>
    simp only [List.foldl_cons]
    rcases ih (if t0 < i.Modified then i.Modified else t0) with h1 | ⟨j, hj, hje⟩
    · by_cases hlt : t0 < i.Modified
      · right
        exact ⟨i, by simp, by rw [h1, if_pos hlt]⟩
      · left
        rw [h1, if_neg hlt]
    · right
      exact ⟨j, by simp [hj], hje⟩

theorem finishLoad_eq (feed : Feed) (st : IssueStore) (mtime now : Int)
    (needMore shrunk : Bool) (st1 : IssueStore) (m1 : Int)
    (hne2 : (feed true mtime now).length ≠ 0)
    (hmerge : mergeList st mtime (feed true mtime now) = (true, st1, m1)) :
    finishLoad feed st mtime now needMore shrunk =
      (if needMore then .moreCron else .done,
       { st1 with
         meta := writeA "issue.mtime" (if shrunk then now - secondNs else m1) st1.meta }) := by
  unfold finishLoad
  rw [if_neg hne2, hmerge]

theorem loadLoop_small_page (feed : Feed) (st : IssueStore) (T0 now : Int) (try0 : Nat)
    (st1 : IssueStore) (m1 : Int)
    (hne : (feed false T0 now).length ≠ 0)
    (hlen : (feed false T0 now).length < 500)
    (hne2 : (feed true T0 now).length ≠ 0)
    (hmerge : mergeList st T0 (feed true T0 now) = (true, st1, m1)) :
    loadLoop feed st T0 now try0 =
      (if try0 > 0 then .moreCron else .done,
       { st1 with
         meta := writeA "issue.mtime" (if try0 > 0 then now - secondNs else m1) st1.meta }) := by
  rw [loadLoop.eq_def]
  dsimp only
  rw [if_neg hne, if_pos hlen]
  rw [finishLoad_eq feed st T0 now _ _ st1 m1 hne2 hmerge]
  by_cases ht : try0 > 0 <;> simp [ht]

theorem loadIssues_small_page (feed : Feed) (st : IssueStore) (T0 now : Int)
    (st1 : IssueStore) (m1 : Int)
    (hmeta : lookupA "issue.mtime" st.meta = some T0)
    (hne : (feed false T0 now).length ≠ 0)
    (hlen : (feed false T0 now).length < 500)
    (hne2 : (feed true T0 now).length ≠ 0)
    (hmerge : mergeList st T0 (feed true T0 now) = (true, st1, m1)) :
    loadIssues feed st now =
      (.done, { st1 with meta := writeA "issue.mtime" m1 st1.meta }) := by
  unfold loadIssues
  rw [hmeta]
  simp only [Option.getD_some]
  rw [loadLoop_small_page feed st T0 now 0 st1 m1 hne hlen hne2 hmerge]
  norm_num

/- ### Claims -/

/-- Claim C4: `Lock(name, d)` returns true iff no unexpired lease exists at
the moment of its atomic read-check-write transaction; on success it writes
an expiry equal to the acquisition time plus `d`; consequently, once a
`Lock` call succeeds at time `t1`, every later `Lock` attempt at a time
before `t1 + d` (with no intervening `Unlock`) returns false — at most one
of any set of overlapping calls succeeds before `d` elapses. -/
theorem C4_lock_mutual_exclusion :
    ∀ (now dt : Int) (st : Option Int), 0 ≤ now →
      ((lockAcquire now dt st).1 = true ↔ ¬ ∃ t, st = some t ∧ now < t) ∧
      ((lockAcquire now dt st).1 = true → (lockAcquire now dt st).2 = some (now + dt)) ∧
      (∀ (t1 : Int) (ts : List Int), (lockAcquire t1 dt st).1 = true →
        (∀ t ∈ ts, t < t1 + dt) →
        ∀ b ∈ (runLocks dt (lockAcquire t1 dt st).2 ts).1, b = false) := by
  intro now dt st hnow
  refine ⟨(lockAcquire_spec now dt st hnow).1, (lockAcquire_spec now dt st hnow).2, ?_⟩
  intro t1 ts hacq hts
  rw [lockAcquire_expiry t1 dt st hacq]
  exact (runLocks_all_false dt (t1 + dt) ts hts).1

/-- Witness for C4 at a concrete input. -/
theorem C4_witness :
    (lockAcquire 5 10 none).1 = true ∧
    (lockAcquire 5 10 none).2 = some 15 ∧
    (∀ b ∈ (runLocks 10 (lockAcquire 5 10 none).2 [6, 14]).1, b = false) := by
  have h := C4_lock_mutual_exclusion 5 10 none (by norm_num)
  have hacq : (lockAcquire 5 10 (none : Option Int)).1 = true := h.1.mpr (by simp)
  refine ⟨hacq, ?_, ?_⟩
  · have := h.2.1 hacq
    simpa using this
  · exact h.2.2 5 [6, 14] hacq (by intro t ht; simp at ht; rcases ht with h1 | h1 <;> omega)

/-- Claim C5: for a feed that always returns exactly `maxResults` (500)
records no matter how narrow the window, the load loop terminates (it is a
total function) and aborts through the cannot-shrink path, leaving the store
unchanged; the loop shrinks by a factor of 10 above one hour and by half
below, with a floor of 2 seconds, as embedded in `loadLoop`. -/
theorem C5_window_shrink_termination (feed : Feed)
    (hfeed : ∀ d lo hi, (feed d lo hi).length = 500) (st : IssueStore)
    (mtime now : Int) (try0 : Nat) :
    loadLoop feed st mtime now try0 = (.cannotShrink, st) :=
  loadLoop_full feed hfeed st (now - mtime).toNat mtime now try0 (le_refl _)

/-- A feed that always returns a full page of 500 results. -/
def fullFeedW : Feed := fun _ _ _ => List.replicate 500 zeroIssue

/-- Witness for C5 at a concrete input. -/
theorem C5_witness :
    loadLoop fullFeedW ⟨[], []⟩ 0 1000000000000 0 = (.cannotShrink, ⟨[], []⟩) :=
  C5_window_shrink_termination fullFeedW
    (fun d lo hi => by unfold fullFeedW; rw [List.length_replicate])
    ⟨[], []⟩ 0 1000000000000 0

/-- Claim C6: after derivation, `Active` is true iff the CL is mailed, has
reviewers, is not closed, not submitted, not dead, was modified within the
last 365 days, and its primary reviewer is not the "close" sentinel. -/
theorem C6_active_definition (now : Int) (cl : CL) :
    (updateCL now cl).Active = true ↔
      ((updateCL now cl).Mailed = true ∧ (updateCL now cl).HasReviewers = true ∧
       (updateCL now cl).Closed = false ∧ (updateCL now cl).Submitted = false ∧
       (updateCL now cl).Dead = false ∧
       now - (updateCL now cl).Modified < 365 * 24 * hourNs ∧
       (updateCL now cl).PrimaryReviewer ≠ "close") := by
  rw [updateCL_Active, updateCL_Mailed, updateCL_HasReviewers, updateCL_Closed,
      updateCL_Submitted, updateCL_Dead, updateCL_Modified, updateCL_PrimaryReviewer]
  unfold activeOf
  simp only [Bool.and_eq_true, decide_eq_true_eq, Bool.not_eq_true']
  tauto

/-- Claim C7 (amended): a CL whose message thread is empty (nothing fetched
yet) is never Active after derivation.  The `MessagesLoaded` /
`PatchSetsLoaded` flags themselves are not consulted by the `Active`
computation. -/
theorem C7_amended_empty_messages (now : Int) (cl : CL) (h : cl.Messages = []) :
    (updateCL now cl).Active = false := by
  rw [updateCL_Active]
  unfold activeOf parsedOf
  rw [h]
  simp

/-- Witness for the amended C7 at a concrete input. -/
theorem C7_witness : (updateCL 0 { zeroCL with CL := "1" }).Active = false :=
  C7_amended_empty_messages 0 { zeroCL with CL := "1" } rfl

/-- The review-request hello message used by the C7 counterexample. -/
def helloMsg : Message :=
  { Sender := "gopher@example.com",
    Text := withSq "Hello rsc,\n\nI?d like you to review this change", Time := 5 }

/-- A mailed CL with a reviewer whose messages and patch sets have not been
marked loaded. -/
def clHello : CL := { Messages := [helloMsg], Reviewers := ["rsc@golang.org"] }

/-- Counterexample to C7 as stated: a CL with `MessagesLoaded = false` and
`PatchSetsLoaded = false` whose derived `Active` is nevertheless true. -/
theorem C7_counterexample :
    clHello.MessagesLoaded = false ∧ clHello.PatchSetsLoaded = false ∧
    (updateCL 0 clHello).MessagesLoaded = false ∧
    (updateCL 0 clHello).PatchSetsLoaded = false ∧
    (updateCL 0 clHello).Active = true := by
  refine ⟨rfl, rfl, ?_, ?_, ?_⟩ <;> decide

/-- The CL of directory-derivation Scenario E. -/
def c9cl : CL := { Files := ["pkg/net/http/client.go", "pkg/net/url.go", "test/run.go"] }

/-- Claim C9: directory attribution counts the directory (all but the last
path segment) of each touched file, decrements the `test` bucket by 10000,
and orders buckets by count descending with ties broken by ascending name;
on Scenario E's files the preferred directory is `pkg/net`. -/
theorem C9_dirs_scenario :
    (∀ cl : CL, List.Sorted dirLe (dirsSorted cl)) ∧
    applyTestPenalty (dirsCountsRaw (dirsPfx c9cl.Repo) c9cl.Files) =
      [("pkg/net/http", 1), ("pkg/net", 1), ("test", -9999)] ∧
    Dirs c9cl = ["pkg/net", "pkg/net/http", "test"] ∧
    (Dirs c9cl).head? = some "pkg/net" := by
  refine ⟨fun cl => List.sorted_insertionSort dirLe _, ?_, ?_, ?_⟩ <;> decide

/-- Agreement of all derived fields of two CLs. -/
def derivedEq (x y : CL) : Prop :=
  x.Dead = y.Dead ∧ x.MessagesLoaded = y.MessagesLoaded ∧
  x.PatchSetsLoaded = y.PatchSetsLoaded ∧ x.HasReviewers = y.HasReviewers ∧
  x.Mailed = y.Mailed ∧ x.Summary = y.Summary ∧ x.Active = y.Active ∧
  x.Repo = y.Repo ∧ x.Files = y.Files ∧ x.MoreFiles = y.MoreFiles ∧
  x.FilesModified = y.FilesModified ∧ x.Delta = y.Delta ∧
  x.Submitted = y.Submitted ∧ x.PrimaryReviewer = y.PrimaryReviewer ∧
  x.NeedsReview = y.NeedsReview ∧ x.LGTM = y.LGTM ∧ x.NOTLGTM = y.NOTLGTM ∧
  x.DescIssue = y.DescIssue ∧ x.MailedIssue = y.MailedIssue ∧
  x.NeedMailIssue = y.NeedMailIssue

/-- A CL differing from `zeroCL` only in the derived field `Dead`. -/
def clDeadTrue : CL := { Dead := true }

/-- Counterexample to C3 as stated: two CLs that agree on every raw mirrored
field but differ in the derived field `Dead` derive different
`MessagesLoaded` values (and hence different derived fields). -/
theorem C3_counterexample :
    rawEq zeroCL clDeadTrue ∧
    ¬ derivedEq (updateCL 0 zeroCL) (updateCL 0 clDeadTrue) := by
  constructor
  · exact ⟨rfl, rfl, rfl, rfl, rfl, rfl, rfl, rfl, rfl, rfl, rfl⟩
  · intro h
    have := h.2.1
    revert this
    decide

/-- Claim C3 (amended): derivation is a pure function of the raw mirrored
fields together with the carried derived state (`Dead`, `Repo`,
`MailedIssue`, `MessagesLoaded`, `PatchSetsLoaded`, `Files`, `MoreFiles`,
`FilesModified`, `Delta`); two records agreeing on those derive identical
derived fields, regardless of any other prior derived state (in particular
`Mailed` and `PrimaryReviewer` may differ arbitrarily). -/
theorem C3_amended_derivation_pure (now : Int) (a b : CL) (hraw : rawEq a b)
    (hDead : a.Dead = b.Dead) (hRepo : a.Repo = b.Repo)
    (hMI : a.MailedIssue = b.MailedIssue) (hML : a.MessagesLoaded = b.MessagesLoaded)
    (hPL : a.PatchSetsLoaded = b.PatchSetsLoaded) (hF : a.Files = b.Files)
    (hMF : a.MoreFiles = b.MoreFiles) (hFM : a.FilesModified = b.FilesModified)
    (hD : a.Delta = b.Delta) :
    derivedEq (updateCL now a) (updateCL now b) := by
  obtain ⟨h1, h2, h3, h4, h5, h6, h7, h8, h9, h10, h11⟩ := hraw
  have hp : parsedOf a = parsedOf b := by
    unfold parsedOf; rw [h7, h4, hRepo]
  have hl : lgtmOf a = lgtmOf b := by unfold lgtmOf; rw [hp]
  have hn : notlgtmOf a = notlgtmOf b := by unfold notlgtmOf; rw [hp]
  have hpr : prOf a = prOf b := by unfold prOf; rw [hp, hl]
  have hnr : nrOf a = nrOf b := by unfold nrOf; rw [hp, hl, hpr, h7]
  have ha : activeOf now a = activeOf now b := by
    unfold activeOf; rw [hp, hpr, h8, h10, hDead, h6]
  unfold derivedEq
  refine ⟨?_, ?_, ?_, ?_, ?_, ?_, ?_, ?_, ?_, ?_, ?_, ?_, ?_, ?_, ?_, ?_, ?_, ?_, ?_, ?_⟩ <;>
    simp [updateCL_eq, hp, hl, hn, hpr, hnr, ha, h1, h2, h3, h4, h5, h6, h7, h8, h9,
          h10, h11, hDead, hRepo, hMI, hML, hPL, hF, hMF, hFM, hD]

/-- A CL differing from `zeroCL` only in recomputed derived fields. -/
def c3w1 : CL := { Mailed := true, PrimaryReviewer := "x" }

/-- Witness for the amended C3 at a concrete input. -/
theorem C3_witness : derivedEq (updateCL 0 c3w1) (updateCL 0 zeroCL) :=
  C3_amended_derivation_pure 0 c3w1 zeroCL
    ⟨rfl, rfl, rfl, rfl, rfl, rfl, rfl, rfl, rfl, rfl, rfl⟩
    rfl rfl rfl rfl rfl rfl rfl rfl rfl

/-- The stored CL record of the C1 counterexample (`Modified = 100`). -/
def c1stored : CL := { CL := "5", Modified := 100 }

/-- A CL store holding `c1stored` under key `"5"`. -/
def c1st : CLStore := { cls := [("5", c1stored)], meta := [], count := 1 }

/-- A remote record for the same CL, marked dead, with `Modified = 0`. -/
def c1dead : CL := { CL := "5", Dead := true, Modified := 0 }

/-- Counterexample to C1 as stated: merging a `Dead` remote record whose
`Modified` is strictly older than the stored record's succeeds (no error)
and changes the stored record — the dead-marking branch of `writeCL` skips
the stale-`Modified` rejection. -/
theorem C1_counterexample :
    c1stored.Modified > c1dead.Modified ∧
    (writeCL 0 c1st c1dead "" "").1 = none ∧
    (writeCL 0 c1st c1dead "" "").2.cls ≠ c1st.cls := by
  refine ⟨by decide, by decide, by decide⟩

/-- Claim C1 (amended): the stale-`Modified` rejection holds for issue
merges always and for CL merges whose remote record is not marked `Dead`
(error returned, store unchanged); and across every successful merge — the
dead-marking path included — the stored `Modified` is non-decreasing. -/
theorem C1_amended_monotonic_modified :
    (∀ (st : IssueStore) (issue : Issue) (sk : String) (s : Int),
       (readOldIssue st (issueKey issue.ID)).Modified > issue.Modified →
       writeIssue st issue sk s = (some "issue: have newer modification time", st)) ∧
    (∀ (now : Int) (st : CLStore) (cl : CL) (mk md : String),
       cl.CL ≠ "" → cl.Dead = false →
       (readOldCL now st cl.CL).Modified > cl.Modified →
       writeCL now st cl mk md = (some "CL: have newer modification time", st)) ∧
    (∀ (now : Int) (st : CLStore) (cl : CL) (mk md : String) (st1 : CLStore) (oldRec : CL),
       writeCL now st cl mk md = (none, st1) →
       lookupA cl.CL st.cls = some oldRec →
       ∃ newRec, lookupA cl.CL st1.cls = some newRec ∧
         oldRec.Modified ≤ newRec.Modified) ∧
    (∀ (st : IssueStore) (issue : Issue) (sk : String) (s : Int) (st1 : IssueStore)
       (oldRec : Issue),
       writeIssue st issue sk s = (none, st1) →
       lookupA (issueKey issue.ID) st.issues = some oldRec →
       ∃ newRec, lookupA (issueKey issue.ID) st1.issues = some newRec ∧
         oldRec.Modified ≤ newRec.Modified) := by
  refine ⟨?_, ?_, ?_, ?_⟩
  · intro st issue sk s hstale
    exact writeIssue_stale_eq st issue sk s hstale
  · intro now st cl mk md hkey hd hstale
    exact writeCL_stale_eq now st cl mk md hkey hd hstale
  · intro now st cl mk md st1 oldRec h hstored
    have hkey : ¬ cl.CL = "" := by
      intro hk
      rw [writeCL_missing now st cl mk md hk] at h
      exact absurd (congrArg Prod.fst h) (by simp)
    have hro : readOldCL now st cl.CL = applyCLUpdater now oldRec := by
      unfold readOldCL; rw [hstored]
    by_cases hd : cl.Dead = true
    · rw [writeCL_dead_eq now st cl mk md hkey hd] at h
      have hst1 := congrArg Prod.snd h
      simp only at hst1
      refine ⟨applyCLUpdater now { readOldCL now st cl.CL with Dead := true }, ?_, ?_⟩
      · rw [← hst1]
        exact lookupA_writeA cl.CL _ st.cls
      · rw [applyCLUpdater_Modified]
        show oldRec.Modified ≤ (readOldCL now st cl.CL).Modified
        rw [hro, applyCLUpdater_Modified]
    · have hdf : cl.Dead = false := by
        revert hd; cases cl.Dead <;> simp
      have hok : ¬ (readOldCL now st cl.CL).Modified > cl.Modified := by
        intro hstale
        rw [writeCL_stale_eq now st cl mk md hkey hdf hstale] at h
        exact absurd (congrArg Prod.fst h) (by simp)
      rw [writeCL_live_eq now st cl mk md hkey hdf hok] at h
      have hst1 := congrArg Prod.snd h
      simp only at hst1
      refine ⟨applyCLUpdater now (copyCL { readOldCL now st cl.CL with Dead := false } cl),
              ?_, ?_⟩
      · rw [← hst1]
        exact lookupA_writeA cl.CL _ st.cls
      · rw [applyCLUpdater_Modified, copyCL_Modified]
        rw [hro, applyCLUpdater_Modified] at hok
        omega
  · intro st issue sk s st1 oldRec h hstored
    have hro : readOldIssue st (issueKey issue.ID) = applyIssueUpdater oldRec := by
      unfold readOldIssue; rw [hstored]
    have hok : ¬ (readOldIssue st (issueKey issue.ID)).Modified > issue.Modified := by
      intro hstale
      rw [writeIssue_stale_eq st issue sk s hstale] at h
      exact absurd (congrArg Prod.fst h) (by simp)
    rw [writeIssue_ok_eq st issue sk s hok] at h
    have hst1 := congrArg Prod.snd h
    simp only at hst1
    refine ⟨applyIssueUpdater (copyIssue (readOldIssue st (issueKey issue.ID)) issue), ?_, ?_⟩
    · rw [← hst1]
      exact lookupA_writeA (issueKey issue.ID) _ st.issues
    · rw [applyIssueUpdater_Modified]
      have hcm : (copyIssue (readOldIssue st (issueKey issue.ID)) issue).Modified =
          issue.Modified := rfl
      rw [hcm]
      rw [hro, applyIssueUpdater_Modified] at hok
      omega

/-- The issue of the C1 witness (`Modified = 50`, older than stored 100). -/
def c1issue : Issue := { ID := 5, Modified := 50 }

/-- An issue store of the C1 witness with stored `Modified = 100`. -/
def c1ist : IssueStore :=
  { issues := [("5", { ID := 5, Modified := 100 })], meta := [] }

/-- Witness for the amended C1 at a concrete input. -/
theorem C1_witness :
    writeIssue c1ist c1issue "" 0 = (some "issue: have newer modification time", c1ist) :=
  C1_amended_monotonic_modified.1 c1ist c1issue "" 0 (by decide)

/-- Claim C2: merging the same remote record twice yields the same persisted
record as merging once — a successful `writeCL` (resp. `writeIssue`)
followed by the same merge again succeeds and leaves the record table
unchanged. -/
theorem C2_idempotent_merge :
    (∀ (now : Int) (st : CLStore) (cl : CL) (mk md : String) (st1 : CLStore),
       writeCL now st cl mk md = (none, st1) →
       ∃ st2, writeCL now st1 cl mk md = (none, st2) ∧ st2.cls = st1.cls) ∧
    (∀ (st : IssueStore) (issue : Issue) (sk : String) (s : Int) (st1 : IssueStore),
       writeIssue st issue sk s = (none, st1) →
       ∃ st2, writeIssue st1 issue sk s = (none, st2) ∧ st2.issues = st1.issues) := by
  constructor
  · intro now st cl mk md st1 h
    obtain ⟨st2, h1, h2, h3⟩ := writeCL_twice now st cl mk md st1 h
    exact ⟨st2, h1, h2⟩
  · intro st issue sk s st1 h
    exact writeIssue_twice st issue sk s st1 h

/-- The remote CL of the C2 witness. -/
def c2cl : CL := { CL := "10", Modified := 7 }

/-- The store after merging `c2cl` into the empty store. -/
def c2st1 : CLStore := (writeCL 0 {} c2cl "" "").2

/-- Witness for C2 at a concrete input. -/
theorem C2_witness :
    ∃ st2, writeCL 0 c2st1 c2cl "" "" = (none, st2) ∧ st2.cls = c2st1.cls :=
  C2_idempotent_merge.1 0 {} c2cl "" "" c2st1 (by decide)

/-- Claim C8: with checkpoint `T0`, a fetch over `[T0, now]` returning a
non-empty page of fewer than `maxResults` records (no shrinking) merges
every record and advances the checkpoint to the largest `Modified` seen;
had shrinking occurred earlier in the invocation (`try > 0`), the
checkpoint is instead set to `now` minus a one-second safety margin and the
adapter signals more work (`ErrMoreCron`). -/
theorem C8_checkpoint_advance (feed : Feed) (st : IssueStore) (T0 now : Int)
    (st1 : IssueStore) (m1 : Int)
    (hmeta : lookupA "issue.mtime" st.meta = some T0)
    (hne : (feed false T0 now).length ≠ 0)
    (hlen : (feed false T0 now).length < 500)
    (hne2 : (feed true T0 now).length ≠ 0)
    (hmerge : mergeList st T0 (feed true T0 now) = (true, st1, m1)) :
    loadIssues feed st now =
      (.done, { st1 with meta := writeA "issue.mtime" m1 st1.meta }) ∧
    m1 = (feed true T0 now).foldl (fun t i => if t < i.Modified then i.Modified else t) T0 ∧
    (∀ i ∈ feed true T0 now, i.Modified ≤ m1) ∧
    ((∀ i ∈ feed true T0 now, T0 < i.Modified) → ∃ i ∈ feed true T0 now, m1 = i.Modified) ∧
    (∀ i ∈ feed true T0 now, (lookupA (issueKey i.ID) st1.issues).isSome = true) ∧
    (∀ try0 : Nat, 1 ≤ try0 →
       loadLoop feed st T0 now try0 =
         (.moreCron, { st1 with meta := writeA "issue.mtime" (now - secondNs) st1.meta })) := by
  obtain ⟨hm1, hsome⟩ := mergeList_ok_facts (feed true T0 now) st T0 st1 m1 hmerge
  refine ⟨loadIssues_small_page feed st T0 now st1 m1 hmeta hne hlen hne2 hmerge,
          hm1, ?_, ?_, hsome, ?_⟩
  · intro i hi
    rw [hm1]
    exact foldMax_ge _ T0 i hi
  · intro hall
    rcases foldMax_mem (feed true T0 now) T0 with hT0 | ⟨i, hi, hie⟩
    · exfalso
      obtain ⟨i0, hi0⟩ := List.exists_mem_of_ne_nil (feed true T0 now)
        (by intro hnil; exact hne2 (by rw [hnil]; rfl))
      have h1 := foldMax_ge (feed true T0 now) T0 i0 hi0
      rw [hT0] at h1
      exact absurd (hall i0 hi0) (by omega)
    · exact ⟨i, hi, by rw [hm1, hie]⟩
  · intro try0 htry
    rw [loadLoop_small_page feed st T0 now try0 st1 m1 hne hlen hne2 hmerge]
    rw [if_pos (show try0 > 0 by omega), if_pos (show try0 > 0 by omega)]

/-- The issue feed of the C8 witness: three records with `Modified` equal to
`T0+1`, `T0+2`, `T0+5` for `T0 = 1000`. -/
def c8feed : Feed := fun _ _ _ =>
  [{ ID := 1, Modified := 1001 }, { ID := 2, Modified := 1002 },
   { ID := 3, Modified := 1005 }]

/-- The starting store of the C8 witness: checkpoint 1000. -/
def c8st : IssueStore := { issues := [], meta := [("issue.mtime", 1000)] }

/-- The merged store of the C8 witness. -/
def c8st1 : IssueStore := (mergeList c8st 1000 (c8feed true 1000 2000)).2.1

/-- Witness for C8 at a concrete input: the checkpoint advances to 1005. -/
theorem C8_witness :
    loadIssues c8feed c8st 2000 =
      (.done, { c8st1 with meta := writeA "issue.mtime" 1005 c8st1.meta }) :=
  (C8_checkpoint_advance c8feed c8st 1000 2000 c8st1 1005 (by decide) (by decide)
     (by decide) (by decide) (by decide)).1

/-- Claim C10: merging a remote CL marked `Dead = true` over a stored record
never performs the stale-`Modified` rejection, leaves every mirrored field
of the stored record unchanged, sets `Dead` to true, and the derivation
applied on write then forces `MessagesLoaded` and `PatchSetsLoaded` to
true. -/
theorem C10_dead_merge_frame (now : Int) (st : CLStore) (cl : CL) (mk md : String)
    (oldRec : CL) (hkey : cl.CL ≠ "") (hd : cl.Dead = true)
    (hstored : lookupA cl.CL st.cls = some oldRec) :
    ∃ st1 newRec, writeCL now st cl mk md = (none, st1) ∧
      lookupA cl.CL st1.cls = some newRec ∧
      rawEq newRec oldRec ∧ newRec.Dead = true ∧
      newRec.MessagesLoaded = true ∧ newRec.PatchSetsLoaded = true := by
  have hro : readOldCL now st cl.CL = applyCLUpdater now oldRec := by
    unfold readOldCL; rw [hstored]
  rw [writeCL_dead_eq now st cl mk md hkey hd]
  refine ⟨_, applyCLUpdater now { readOldCL now st cl.CL with Dead := true },
          rfl, ?_, ?_, ?_, ?_, ?_⟩
  · exact lookupA_writeA cl.CL _ st.cls
  · refine ⟨?_, ?_, ?_, ?_, ?_, ?_, ?_, ?_, ?_, ?_, ?_⟩
    · rw [applyCLUpdater_CLf, hro]
      exact applyCLUpdater_CLf now oldRec
    · rw [applyCLUpdater_Desc, hro]
      exact applyCLUpdater_Desc now oldRec
    · rw [applyCLUpdater_Owner, hro]
      exact applyCLUpdater_Owner now oldRec
    · rw [applyCLUpdater_OwnerEmail, hro]
      exact applyCLUpdater_OwnerEmail now oldRec
    · rw [applyCLUpdater_Created, hro]
      exact applyCLUpdater_Created now oldRec
    · rw [applyCLUpdater_Modified, hro]
      exact applyCLUpdater_Modified now oldRec
    · rw [applyCLUpdater_Messages, hro]
      exact applyCLUpdater_Messages now oldRec
    · rw [applyCLUpdater_Reviewers, hro]
      exact applyCLUpdater_Reviewers now oldRec
    · rw [applyCLUpdater_CC, hro]
      exact applyCLUpdater_CC now oldRec
    · rw [applyCLUpdater_Closed, hro]
      exact applyCLUpdater_Closed now oldRec
    · rw [applyCLUpdater_PatchSets, hro]
      exact applyCLUpdater_PatchSets now oldRec
  · rw [applyCLUpdater_Dead]
  · rw [applyCLUpdater_MessagesLoaded]
    simp
  · rw [applyCLUpdater_PatchSetsLoaded]
    simp

/-- The stored CL record of the C10 witness. -/
def c10old : CL := { CL := "7", Modified := 50 }

/-- A CL store holding `c10old` under key `"7"`. -/
def c10st : CLStore := { cls := [("7", c10old)], meta := [], count := 1 }

/-- A remote record for the same CL, marked dead. -/
def c10dead : CL := { CL := "7", Dead := true }

/-- Witness for C10 at a concrete input. -/
theorem C10_witness :
    ∃ st1 newRec, writeCL 0 c10st c10dead "" "" = (none, st1) ∧
      lookupA c10dead.CL st1.cls = some newRec ∧
      rawEq newRec c10old ∧ newRec.Dead = true ∧
      newRec.MessagesLoaded = true ∧ newRec.PatchSetsLoaded = true :=
  C10_dead_merge_frame 0 c10st c10dead "" "" c10old (by decide) rfl (by decide)
